import Mathlib

/-!
Verification of the mainline DHT node core (files src/dht.rs and
src/messages/internal.rs) against its natural-language specification.

The development has three parts:
1. a shallow embedding of the bencode wire format used by serde_bencode
   (values, byte-level serializer and parser, and a proved round-trip);
2. an embedding of the DHTMessage structs of src/messages/internal.rs with
   the serde encode/decode semantics induced by their attributes
   (internally tagged on y and q, untagged-in-declaration-order responses,
   default fields, unknown fields ignored);
3. small functional models of the actor and facade code of src/dht.rs.
-/

set_option maxRecDepth 4000

/-- Bencode values. Lists and dictionaries are represented by their spines
(scons/snil and dcons/dnil) so that every function on values is plainly
structurally recursive; wfB below singles out the values in which spines
occur only under list/dict, which are exactly the values representable by
the serde_bencode Value type. -/
inductive BVal where
  | int : Int → BVal
  | str : List Nat → BVal
  | list : BVal → BVal
  | dict : BVal → BVal
  | snil : BVal
  | scons : BVal → BVal → BVal
  | dnil : BVal
  | dcons : List Nat → BVal → BVal → BVal
deriving DecidableEq, Repr

/-- Parser modes: a single value, a list spine, or a dictionary spine. -/
inductive PM where
  | v : PM
  | s : PM
  | d : PM
deriving DecidableEq, Repr

/-- Wellformedness of a BVal in a given mode: spines appear exactly under
list and dict constructors. -/
def wfB : PM → BVal → Bool
  | .v, .int _ => true
  | .v, .str _ => true
  | .v, .list sp => wfB .s sp
  | .v, .dict sp => wfB .d sp
  | .s, .snil => true
  | .s, .scons v t => wfB .v v && wfB .s t
  | .d, .dnil => true
  | .d, .dcons _ v t => wfB .v v && wfB .d t
  | _, _ => false

/-- Big-endian decimal digits of a natural number (fueled so that the
definition is structurally recursive and kernel-reducible). -/
def natDigitsAux : Nat → Nat → List Nat
  | 0, _ => []
  | fuel + 1, n => if n < 10 then [n] else natDigitsAux fuel (n / 10) ++ [n % 10]

/-- ASCII decimal encoding of a natural number. -/
def encNat (n : Nat) : List Nat :=
  (natDigitsAux (n + 1) n).map (fun d => d + 48)

/-- ASCII decimal encoding of an integer, with a leading minus sign when
negative, as serde_bencode writes bencode integers. -/
def encInt (i : Int) : List Nat :=
  if i < 0 then 45 :: encNat i.natAbs else encNat i.toNat

/-- Byte-level bencode serializer, mirroring what serde_bencode writes:
integers as i<decimal>e, byte strings as <len>:<bytes>, lists as l...e and
dictionaries as d...e. -/
def encodeB : BVal → List Nat
  | .int i => 105 :: (encInt i ++ [101])
  | .str s => encNat s.length ++ 58 :: s
  | .list sp => 108 :: (encodeB sp ++ [101])
  | .dict sp => 100 :: (encodeB sp ++ [101])
  | .snil => []
  | .scons v t => encodeB v ++ encodeB t
  | .dnil => []
  | .dcons k v t => encNat k.length ++ 58 :: k ++ encodeB v ++ encodeB t

/-- Consume a run of ASCII digits, accumulating their decimal value. -/
def parseDigits : List Nat → Nat → (Nat × List Nat)
  | [], acc => (acc, [])
  | c :: r, acc =>
    if 48 ≤ c ∧ c ≤ 57 then parseDigits r (acc * 10 + (c - 48)) else (acc, c :: r)

/-- Parse a nonempty run of ASCII digits as a natural number. -/
def parseNum : List Nat → Option (Nat × List Nat)
  | [] => none
  | c :: r => if 48 ≤ c ∧ c ≤ 57 then some (parseDigits (c :: r) 0) else none

/-- Parse a bencode integer body (optional minus sign, then digits). -/
def parseInt : List Nat → Option (Int × List Nat)
  | [] => none
  | c :: r =>
    if c = 45 then (parseNum r).map (fun p => (-(p.1 : Int), p.2))
    else (parseNum (c :: r)).map (fun p => ((p.1 : Int), p.2))

/-- Parse a bencode byte string: <len>:<bytes>. -/
def parseStr (bs : List Nat) : Option (List Nat × List Nat) :=
  match parseNum bs with
  | some (n, c :: r) =>
    if c = 58 ∧ n ≤ r.length then some (r.take n, r.drop n) else none
  | _ => none

/-- Byte-level bencode parser. The fuel argument decreases on every
recursive call, keeping the definition structural and kernel-reducible;
mode .s and .d parse list and dictionary spines and consume the closing e
byte themselves. -/
def parseCore : Nat → PM → List Nat → Option (BVal × List Nat)
  | 0, _, _ => none
  | _ + 1, _, [] => none
  | fuel + 1, .v, c :: rest =>
    if c = 105 then
      match parseInt rest with
      | some (i, c2 :: r2) => if c2 = 101 then some (.int i, r2) else none
      | _ => none
    else if c = 108 then
      match parseCore fuel .s rest with
      | some (sp, r) => some (.list sp, r)
      | none => none
    else if c = 100 then
      match parseCore fuel .d rest with
      | some (sp, r) => some (.dict sp, r)
      | none => none
    else
      match parseStr (c :: rest) with
      | some (s, r) => some (.str s, r)
      | none => none
  | fuel + 1, .s, c :: rest =>
    if c = 101 then some (.snil, rest)
    else
      match parseCore fuel .v (c :: rest) with
      | some (v, r1) =>
        match parseCore fuel .s r1 with
        | some (t, r2) => some (.scons v t, r2)
        | none => none
      | none => none
  | fuel + 1, .d, c :: rest =>
    if c = 101 then some (.dnil, rest)
    else
      match parseStr (c :: rest) with
      | some (k, r1) =>
        match parseCore fuel .v r1 with
        | some (v, r2) =>
          match parseCore fuel .d r2 with
          | some (t, r3) => some (.dcons k v t, r3)
          | none => none
        | none => none
      | none => none

/-- Fuel measure for the parser: nesting depth of a value. -/
def bsize : BVal → Nat
  | .int _ => 1
  | .str _ => 1
  | .list sp => 1 + bsize sp
  | .dict sp => 1 + bsize sp
  | .snil => 1
  | .scons v t => 1 + max (bsize v) (bsize t)
  | .dnil => 1
  | .dcons _ v t => 1 + max (bsize v) (bsize t)

/-- Parse a whole bencode document, with fuel derived from the input
length (sufficient for any value the serializer can produce). Trailing
bytes are ignored. -/
def parseBencode (bs : List Nat) : Option BVal :=
  match parseCore (bs.length + 1) .v bs with
  | some (v, _) => some v
  | none => none

theorem natDigitsAux_spec :
    ∀ fuel n, n < fuel →
      natDigitsAux fuel n ≠ [] ∧ (∀ d ∈ natDigitsAux fuel n, d < 10) ∧
        (natDigitsAux fuel n).foldl (fun a d => a * 10 + d) 0 = n := by
  intro fuel
  induction fuel with
  | zero => intro n h; omega
  | succ f ih =>
    intro n h
    by_cases h10 : n < 10
    · refine ⟨by simp [natDigitsAux, h10], ?_, by simp [natDigitsAux, h10]⟩
      intro d hd
      simp [natDigitsAux, h10] at hd
      omega
    · have hrec := ih (n / 10) (by omega)
      simp only [natDigitsAux, if_neg h10]
      refine ⟨by simp, ?_, ?_⟩
      · intro d hd
        rcases List.mem_append.1 hd with h1 | h1
        · exact hrec.2.1 d h1
        · simp at h1; omega
      · rw [List.foldl_append, hrec.2.2]
        simp
        omega

theorem encNat_ne_nil (n : Nat) : encNat n ≠ [] := by
  have h := natDigitsAux_spec (n + 1) n (by omega)
  simp only [encNat]
  intro hc
  exact h.1 (List.map_eq_nil_iff.1 hc)

theorem encNat_digits (n : Nat) : ∀ c ∈ encNat n, 48 ≤ c ∧ c ≤ 57 := by
  have h := natDigitsAux_spec (n + 1) n (by omega)
  intro c hc
  simp only [encNat, List.mem_map] at hc
  obtain ⟨d, hd, rfl⟩ := hc
  have := h.2.1 d hd
  omega

theorem parseDigits_enc :
    ∀ (ds : List Nat) (acc c : Nat) (rest : List Nat),
      (∀ d ∈ ds, d < 10) → ¬(48 ≤ c ∧ c ≤ 57) →
      parseDigits (ds.map (fun d => d + 48) ++ c :: rest) acc =
        (ds.foldl (fun a d => a * 10 + d) acc, c :: rest) := by
  intro ds
  induction ds with
  | nil =>
    intro acc c rest _ hc
    simp [parseDigits, hc]
  | cons d t ih =>
    intro acc c rest hds hc
    have hd : d < 10 := hds d (by simp)
    simp only [List.map_cons, List.cons_append, parseDigits]
    rw [if_pos (by omega)]
    have h48 : d + 48 - 48 = d := by omega
    simp only [List.append_eq]
    rw [h48, ih _ _ _ (fun x hx => hds x (by simp [hx])) hc]
    simp

theorem parseNum_enc (n c : Nat) (rest : List Nat) (hc : ¬(48 ≤ c ∧ c ≤ 57)) :
    parseNum (encNat n ++ c :: rest) = some (n, c :: rest) := by
  have h := natDigitsAux_spec (n + 1) n (by omega)
  cases hds : natDigitsAux (n + 1) n with
  | nil => exact absurd hds h.1
  | cons d t =>
    have hdig : ∀ x ∈ d :: t, x < 10 := by
      intro x hx
      exact h.2.1 x (hds ▸ hx)
    have hd : d < 10 := hdig d (by simp)
    have hfold : (d :: t).foldl (fun a x => a * 10 + x) 0 = n := by
      rw [← hds]; exact h.2.2
    simp only [encNat, hds, List.map_cons, List.cons_append, parseNum]
    rw [if_pos (by omega)]
    have := parseDigits_enc (d :: t) 0 c rest hdig hc
    simp only [List.map_cons, List.cons_append] at this
    rw [this, hfold]

theorem listTakeAppend (l r : List Nat) : (l ++ r).take l.length = l := by
  induction l with
  | nil => simp
  | cons a t ih => simp [ih]

theorem listDropAppend (l r : List Nat) : (l ++ r).drop l.length = r := by
  induction l with
  | nil => simp
  | cons a t ih => simp [ih]

theorem parseStr_enc (s rest : List Nat) :
    parseStr (encNat s.length ++ 58 :: (s ++ rest)) = some (s, rest) := by
  simp only [parseStr, parseNum_enc s.length 58 (s ++ rest) (by omega)]
  rw [if_pos (by simp)]
  rw [listTakeAppend, listDropAppend]

theorem parseInt_enc (i : Int) (rest : List Nat) :
    parseInt (encInt i ++ 101 :: rest) = some (i, 101 :: rest) := by
  by_cases hneg : i < 0
  · simp only [encInt, if_pos hneg, List.cons_append, parseInt, if_pos rfl]
    rw [parseNum_enc i.natAbs 101 rest (by omega)]
    simp [abs_of_neg hneg]
  · have h := encNat_ne_nil i.toNat
    cases hds : encNat i.toNat with
    | nil => exact absurd hds h
    | cons d t =>
      have hd : 48 ≤ d ∧ d ≤ 57 := encNat_digits i.toNat d (by rw [hds]; simp)
      simp only [encInt, if_neg hneg, hds, List.cons_append, parseInt]
      rw [if_neg (by omega)]
      have := parseNum_enc i.toNat 101 rest (by omega)
      rw [hds] at this
      simp only [List.cons_append] at this
      rw [this]
      have h2 : ((i.toNat : Nat) : Int) = i := by omega
      simp [h2]

theorem encodeB_head (v : BVal) (h : wfB .v v = true) :
    ∃ c cs, encodeB v = c :: cs ∧ ¬c = 101 := by
  cases v with
  | int i => exact ⟨105, _, rfl, by omega⟩
  | str s =>
    have hne := encNat_ne_nil s.length
    cases hds : encNat s.length with
    | nil => exact absurd hds hne
    | cons d t =>
      have hd : 48 ≤ d ∧ d ≤ 57 := encNat_digits s.length d (by rw [hds]; simp)
      exact ⟨d, t ++ 58 :: s, by simp [encodeB, hds], by omega⟩
  | list sp => exact ⟨108, _, rfl, by omega⟩
  | dict sp => exact ⟨100, _, rfl, by omega⟩
  | snil => simp [wfB] at h
  | scons a b => simp [wfB] at h
  | dnil => simp [wfB] at h
  | dcons k a b => simp [wfB] at h

theorem encodeB_length_pos (v : BVal) (h : wfB .v v = true) :
    1 ≤ (encodeB v).length := by
  obtain ⟨c, cs, he, _⟩ := encodeB_head v h
  simp [he]

/-- Fuel slack allowed per parser mode in the size bound. -/
def pmExtra : PM → Nat
  | .v => 0
  | .s => 1
  | .d => 1

theorem bsize_le_encodeB :
    ∀ (v : BVal) (m : PM), wfB m v = true →
      bsize v ≤ (encodeB v).length + pmExtra m := by
  intro v
  induction v with
  | int i =>
    intro m hm
    cases m
    case s => simp [wfB] at hm
    case d => simp [wfB] at hm
    case v => simp [bsize, encodeB, pmExtra]
  | str s =>
    intro m hm
    cases m
    case s => simp [wfB] at hm
    case d => simp [wfB] at hm
    case v =>
      simp [bsize, encodeB, pmExtra]
      omega
  | list sp ih =>
    intro m hm
    cases m
    case s => simp [wfB] at hm
    case d => simp [wfB] at hm
    case v =>
      simp only [wfB] at hm
      have h1 := ih .s hm
      simp only [bsize, encodeB, pmExtra] at h1 ⊢
      simp at h1 ⊢
      omega
  | dict sp ih =>
    intro m hm
    cases m
    case s => simp [wfB] at hm
    case v =>
      simp only [wfB] at hm
      have h1 := ih .d hm
      simp only [bsize, encodeB, pmExtra] at h1 ⊢
      simp at h1 ⊢
      omega
    case d => simp [wfB] at hm
  | snil =>
    intro m hm
    cases m
    case v => simp [wfB] at hm
    case d => simp [wfB] at hm
    case s => simp [bsize, encodeB, pmExtra]
  | scons a b iha ihb =>
    intro m hm
    cases m
    case v => simp [wfB] at hm
    case d => simp [wfB] at hm
    case s =>
      simp only [wfB, Bool.and_eq_true] at hm
      have h1 := iha .v hm.1
      have h2 := ihb .s hm.2
      have h3 := encodeB_length_pos a hm.1
      simp only [bsize, encodeB, pmExtra] at h1 h2 ⊢
      simp at h1 h2 ⊢
      omega
  | dnil =>
    intro m hm
    cases m
    case v => simp [wfB] at hm
    case s => simp [wfB] at hm
    case d => simp [bsize, encodeB, pmExtra]
  | dcons k a b iha ihb =>
    intro m hm
    cases m
    case v => simp [wfB] at hm
    case s => simp [wfB] at hm
    case d =>
      simp only [wfB, Bool.and_eq_true] at hm
      have h1 := iha .v hm.1
      have h2 := ihb .d hm.2
      have h3 : 1 ≤ (encNat k.length).length := by
        cases hds : encNat k.length with
        | nil => exact absurd hds (encNat_ne_nil k.length)
        | cons d t => simp
      simp only [bsize, encodeB, pmExtra] at h1 h2 ⊢
      simp at h1 h2 ⊢
      omega

/-- Closing bytes consumed by each parser mode. -/
def pmClose : PM → List Nat
  | .v => []
  | .s => [101]
  | .d => [101]

theorem parseCore_enc :
    ∀ (v : BVal) (m : PM) (fuel : Nat) (rest : List Nat),
      wfB m v = true → bsize v ≤ fuel →
      parseCore fuel m (encodeB v ++ (pmClose m ++ rest)) = some (v, rest) := by
  intro v
  induction v with
  | int i =>
    intro m fuel rest hwf hsz
    cases m
    case s => simp [wfB] at hwf
    case d => simp [wfB] at hwf
    case v =>
      cases fuel with
      | zero => simp [bsize] at hsz
      | succ f =>
        have : encodeB (.int i) ++ (pmClose .v ++ rest) = 105 :: (encInt i ++ 101 :: rest) := by
          simp [encodeB, pmClose]
        rw [this]
        simp only [parseCore, if_pos rfl]
        rw [parseInt_enc i rest]
        simp
  | str s =>
    intro m fuel rest hwf hsz
    cases m
    case s => simp [wfB] at hwf
    case d => simp [wfB] at hwf
    case v =>
      cases fuel with
      | zero => simp [bsize] at hsz
      | succ f =>
        have hne := encNat_ne_nil s.length
        cases hds : encNat s.length with
        | nil => exact absurd hds hne
        | cons d t =>
          have hd : 48 ≤ d ∧ d ≤ 57 := encNat_digits s.length d (by rw [hds]; simp)
          have heq : encodeB (.str s) ++ (pmClose .v ++ rest) =
              d :: (t ++ 58 :: (s ++ rest)) := by
            simp [encodeB, pmClose, hds]
          rw [heq]
          simp only [parseCore]
          rw [if_neg (by omega), if_neg (by omega), if_neg (by omega)]
          have := parseStr_enc s rest
          rw [hds] at this
          simp only [List.cons_append] at this
          rw [this]
  | list sp ih =>
    intro m fuel rest hwf hsz
    cases m
    case s => simp [wfB] at hwf
    case d => simp [wfB] at hwf
    case v =>
      cases fuel with
      | zero => simp [bsize] at hsz
      | succ f =>
        simp only [wfB] at hwf
        have heq : encodeB (.list sp) ++ (pmClose .v ++ rest) =
            108 :: (encodeB sp ++ ([101] ++ rest)) := by
          simp [encodeB, pmClose]
        rw [heq]
        have hs : bsize sp ≤ f := by simp [bsize] at hsz; omega
        have h1 := ih .s f rest hwf hs
        simp only [pmClose, List.cons_append, List.nil_append] at h1
        simp [parseCore, h1]
  | dict sp ih =>
    intro m fuel rest hwf hsz
    cases m
    case s => simp [wfB] at hwf
    case d => simp [wfB] at hwf
    case v =>
      cases fuel with
      | zero => simp [bsize] at hsz
      | succ f =>
        simp only [wfB] at hwf
        have heq : encodeB (.dict sp) ++ (pmClose .v ++ rest) =
            100 :: (encodeB sp ++ ([101] ++ rest)) := by
          simp [encodeB, pmClose]
        rw [heq]
        have hs : bsize sp ≤ f := by simp [bsize] at hsz; omega
        have h1 := ih .d f rest hwf hs
        simp only [pmClose, List.cons_append, List.nil_append] at h1
        simp [parseCore, h1]
  | snil =>
    intro m fuel rest hwf hsz
    cases m
    case v => simp [wfB] at hwf
    case d => simp [wfB] at hwf
    case s =>
      cases fuel with
      | zero => simp [bsize] at hsz
      | succ f =>
        have heq : encodeB .snil ++ (pmClose .s ++ rest) = 101 :: rest := by
          simp [encodeB, pmClose]
        rw [heq]
        simp [parseCore]
  | scons a b iha ihb =>
    intro m fuel rest hwf hsz
    cases m
    case v => simp [wfB] at hwf
    case d => simp [wfB] at hwf
    case s =>
      cases fuel with
      | zero => simp [bsize] at hsz
      | succ f =>
        simp only [wfB, Bool.and_eq_true] at hwf
        obtain ⟨c, cs, hhd, hc⟩ := encodeB_head a hwf.1
        have heq : encodeB (.scons a b) ++ (pmClose .s ++ rest) =
            c :: (cs ++ (encodeB b ++ 101 :: rest)) := by
          simp [encodeB, pmClose, hhd]
        rw [heq]
        have ha : bsize a ≤ f := by simp [bsize] at hsz; omega
        have hb : bsize b ≤ f := by simp [bsize] at hsz; omega
        have h1 := iha .v f (encodeB b ++ 101 :: rest) hwf.1 ha
        simp only [pmClose, List.nil_append] at h1
        rw [hhd] at h1
        simp only [List.cons_append] at h1
        have h2 := ihb .s f rest hwf.2 hb
        simp only [pmClose, List.cons_append, List.nil_append] at h2
        simp [parseCore, hc, h1, h2]
  | dnil =>
    intro m fuel rest hwf hsz
    cases m
    case v => simp [wfB] at hwf
    case s => simp [wfB] at hwf
    case d =>
      cases fuel with
      | zero => simp [bsize] at hsz
      | succ f =>
        have heq : encodeB .dnil ++ (pmClose .d ++ rest) = 101 :: rest := by
          simp [encodeB, pmClose]
        rw [heq]
        simp [parseCore]
  | dcons k a b iha ihb =>
    intro m fuel rest hwf hsz
    cases m
    case v => simp [wfB] at hwf
    case s => simp [wfB] at hwf
    case d =>
      cases fuel with
      | zero => simp [bsize] at hsz
      | succ f =>
        simp only [wfB, Bool.and_eq_true] at hwf
        have hne := encNat_ne_nil k.length
        cases hds : encNat k.length with
        | nil => exact absurd hds hne
        | cons d t =>
          have hd : 48 ≤ d ∧ d ≤ 57 := encNat_digits k.length d (by rw [hds]; simp)
          have heq : encodeB (.dcons k a b) ++ (pmClose .d ++ rest) =
              d :: (t ++ 58 :: (k ++ (encodeB a ++ (encodeB b ++ 101 :: rest)))) := by
            simp [encodeB, pmClose, hds]
          rw [heq]
          have hstr := parseStr_enc k (encodeB a ++ (encodeB b ++ 101 :: rest))
          rw [hds] at hstr
          simp only [List.cons_append] at hstr
          have ha : bsize a ≤ f := by simp [bsize] at hsz; omega
          have hb : bsize b ≤ f := by simp [bsize] at hsz; omega
          have h1 := iha .v f (encodeB b ++ 101 :: rest) hwf.1 ha
          simp only [pmClose, List.nil_append] at h1
          have h2 := ihb .d f rest hwf.2 hb
          simp only [pmClose, List.cons_append, List.nil_append] at h2
          simp [parseCore, show ¬d = 101 by omega, hstr, h1, h2]

theorem parseBencode_encodeB (v : BVal) (h : wfB .v v = true) :
    parseBencode (encodeB v) = some v := by
  have hsz := bsize_le_encodeB v .v h
  simp only [pmExtra] at hsz
  have := parseCore_enc v .v ((encodeB v).length + 1) [] h (by omega)
  simp only [pmClose, List.nil_append, List.append_nil] at this
  simp [parseBencode, this]

/-! ## The message structs of src/messages/internal.rs

The structures below mirror the Rust structs field for field. Byte strings
(serde_bytes fields) are List Nat; the field k of the get_value response
has no serde_bytes attribute in the source, so it is serialized as a
bencode list of integers; port is u16, implied_port u8, read_only i32 and
seq i64, which deserialize with the corresponding range checks. -/

/-- ASCII bytes of a string literal. -/
def strBytes (s : String) : List Nat := s.data.map Char.toNat

structure DHTPingRequestArguments where
  id : List Nat
deriving DecidableEq, Repr

structure DHTFindNodeRequestArguments where
  id : List Nat
  target : List Nat
deriving DecidableEq, Repr

structure DHTGetPeersRequestArguments where
  id : List Nat
  info_hash : List Nat
deriving DecidableEq, Repr

structure DHTAnnouncePeerRequestArguments where
  id : List Nat
  info_hash : List Nat
  port : Nat
  token : List Nat
  implied_port : Option Nat
deriving DecidableEq, Repr

structure DHTGetValueArguments where
  id : List Nat
  target : List Nat
deriving DecidableEq, Repr

structure DHTPingResponseArguments where
  id : List Nat
deriving DecidableEq, Repr

structure DHTFindNodeResponseArguments where
  id : List Nat
  nodes : List Nat
deriving DecidableEq, Repr

structure DHTGetPeersResponseArguments where
  id : List Nat
  token : List Nat
  nodes : Option (List Nat)
  values : Option (List (List Nat))
deriving DecidableEq, Repr

structure DHTGetValueResponseArguments where
  id : List Nat
  token : List Nat
  nodes : Option (List Nat)
  v : List Nat
  k : Option (List Nat)
  sig : Option (List Nat)
  seq : Option Int
deriving DecidableEq, Repr

/-- Error payload: a bencode list of arbitrary values, as in the source
(error_info is a Vec of serde_bencode Value). -/
structure DHTErrorSpecific where
  error_info : List BVal
deriving DecidableEq, Repr

/-- Internally tagged on q. Note the source has no put variant. -/
inductive DHTRequestSpecific where
  | Ping : DHTPingRequestArguments → DHTRequestSpecific
  | FindNode : DHTFindNodeRequestArguments → DHTRequestSpecific
  | GetPeers : DHTGetPeersRequestArguments → DHTRequestSpecific
  | AnnouncePeer : DHTAnnouncePeerRequestArguments → DHTRequestSpecific
  | GetValue : DHTGetValueArguments → DHTRequestSpecific
deriving DecidableEq, Repr

/-- Untagged: deserialization tries the variants in declaration order
(GetValue, GetPeers, FindNode, Ping), most detailed first. -/
inductive DHTResponseSpecific where
  | GetValue : DHTGetValueResponseArguments → DHTResponseSpecific
  | GetPeers : DHTGetPeersResponseArguments → DHTResponseSpecific
  | FindNode : DHTFindNodeResponseArguments → DHTResponseSpecific
  | Ping : DHTPingResponseArguments → DHTResponseSpecific
deriving DecidableEq, Repr

/-- Tagged on y: q, r or e. -/
inductive DHTMessageVariant where
  | Request : DHTRequestSpecific → DHTMessageVariant
  | Response : DHTResponseSpecific → DHTMessageVariant
  | Error : DHTErrorSpecific → DHTMessageVariant
deriving DecidableEq, Repr

structure DHTMessage where
  transaction_id : List Nat
  version : Option (List Nat)
  variant : DHTMessageVariant
  ip : Option (List Nat)
  read_only : Option Int
deriving DecidableEq, Repr

def kT : List Nat := [116]
def kV : List Nat := [118]
def kY : List Nat := [121]
def kQ : List Nat := [113]
def kA : List Nat := [97]
def kR : List Nat := [114]
def kE : List Nat := [101]
def kIp : List Nat := [105, 112]
def kRo : List Nat := [114, 111]
def kId : List Nat := [105, 100]
def kTarget : List Nat := [116, 97, 114, 103, 101, 116]
def kInfoHash : List Nat := [105, 110, 102, 111, 95, 104, 97, 115, 104]
def kPort : List Nat := [112, 111, 114, 116]
def kToken : List Nat := [116, 111, 107, 101, 110]
def kImpliedPort : List Nat := [105, 109, 112, 108, 105, 101, 100, 95, 112, 111, 114, 116]
def kNodes : List Nat := [110, 111, 100, 101, 115]
def kValues : List Nat := [118, 97, 108, 117, 101, 115]
def kK : List Nat := [107]
def kSig : List Nat := [115, 105, 103]
def kSeq : List Nat := [115, 101, 113]
def mPing : List Nat := [112, 105, 110, 103]
def mFindNode : List Nat := [102, 105, 110, 100, 95, 110, 111, 100, 101]
def mGetPeers : List Nat := [103, 101, 116, 95, 112, 101, 101, 114, 115]
def mAnnouncePeer : List Nat := [97, 110, 110, 111, 117, 110, 99, 101, 95, 112, 101, 101, 114]
def mGetValue : List Nat := [103, 101, 116, 95, 118, 97, 108, 117, 101]

/-- Turn an entry list into a dictionary spine. -/
def dspineOf : List (List Nat × BVal) → BVal
  | [] => .dnil
  | (k, v) :: t => .dcons k v (dspineOf t)

/-- Turn a value list into a list spine. -/
def sspineOf : List BVal → BVal
  | [] => .snil
  | v :: t => .scons v (sspineOf t)

/-- Dictionary value from an entry list. -/
def bdict (l : List (List Nat × BVal)) : BVal := .dict (dspineOf l)

/-- List value from a value list. -/
def blist (l : List BVal) : BVal := .list (sspineOf l)

/-- Entry list of an optional field: absent fields are skipped by
serde_bencode (None serializes to nothing and the pair is dropped). -/
def optEntry (k : List Nat) : Option BVal → List (List Nat × BVal)
  | none => []
  | some v => [(k, v)]

/-! ## Serialization (serde Serialize derive and serde_bencode writer)

Each struct serializes to a dictionary holding its present fields; keys
are written in sorted order as serde_bencode sorts dictionary keys. -/

def encPingReqArgsL (a : DHTPingRequestArguments) : List (List Nat × BVal) :=
  [(kId, .str a.id)]

def encFindNodeReqArgsL (a : DHTFindNodeRequestArguments) : List (List Nat × BVal) :=
  [(kId, .str a.id), (kTarget, .str a.target)]

def encGetPeersReqArgsL (a : DHTGetPeersRequestArguments) : List (List Nat × BVal) :=
  [(kId, .str a.id), (kInfoHash, .str a.info_hash)]

def encAnnouncePeerReqArgsL (a : DHTAnnouncePeerRequestArguments) :
    List (List Nat × BVal) :=
  [(kId, .str a.id)] ++
    optEntry kImpliedPort (a.implied_port.map (fun (x : Nat) => BVal.int (x : Int))) ++
    [(kInfoHash, .str a.info_hash), (kPort, .int (a.port : Int)), (kToken, .str a.token)]

def encGetValueReqArgsL (a : DHTGetValueArguments) : List (List Nat × BVal) :=
  [(kId, .str a.id), (kTarget, .str a.target)]

def encPingRespArgsL (a : DHTPingResponseArguments) : List (List Nat × BVal) :=
  [(kId, .str a.id)]

def encFindNodeRespArgsL (a : DHTFindNodeResponseArguments) : List (List Nat × BVal) :=
  [(kId, .str a.id), (kNodes, .str a.nodes)]

def encGetPeersRespArgsL (a : DHTGetPeersResponseArguments) : List (List Nat × BVal) :=
  [(kId, .str a.id)] ++
    optEntry kNodes (a.nodes.map (fun s => .str s)) ++
    [(kToken, .str a.token)] ++
    optEntry kValues (a.values.map (fun vs => blist (vs.map (fun s => .str s))))

def encGetValueRespArgsL (a : DHTGetValueResponseArguments) : List (List Nat × BVal) :=
  [(kId, .str a.id)] ++
    optEntry kK (a.k.map (fun l => blist (l.map (fun (x : Nat) => BVal.int (x : Int))))) ++
    optEntry kNodes (a.nodes.map (fun s => .str s)) ++
    optEntry kSeq (a.seq.map (fun s => .int s)) ++
    optEntry kSig (a.sig.map (fun s => .str s)) ++
    [(kToken, .str a.token), (kV, .str a.v)]

/-- Arguments entry list of each request method. -/
def reqArgsL : DHTRequestSpecific → List (List Nat × BVal)
  | .Ping a => encPingReqArgsL a
  | .FindNode a => encFindNodeReqArgsL a
  | .GetPeers a => encGetPeersReqArgsL a
  | .AnnouncePeer a => encAnnouncePeerReqArgsL a
  | .GetValue a => encGetValueReqArgsL a

/-- Wire name of each request method (value of the q tag). -/
def reqName : DHTRequestSpecific → List Nat
  | .Ping _ => mPing
  | .FindNode _ => mFindNode
  | .GetPeers _ => mGetPeers
  | .AnnouncePeer _ => mAnnouncePeer
  | .GetValue _ => mGetValue

/-- Arguments entry list of each response variant. -/
def respArgsL : DHTResponseSpecific → List (List Nat × BVal)
  | .GetValue a => encGetValueRespArgsL a
  | .GetPeers a => encGetPeersRespArgsL a
  | .FindNode a => encFindNodeRespArgsL a
  | .Ping a => encPingRespArgsL a

/-- Entries of the flattened variant whose keys sort before ip (a, e). -/
def variantPre : DHTMessageVariant → List (List Nat × BVal)
  | .Request r => [(kA, bdict (reqArgsL r))]
  | .Response _ => []
  | .Error e => [(kE, blist e.error_info)]

/-- Entries of the flattened variant whose keys sort between ip and ro
(q, r). -/
def variantMid : DHTMessageVariant → List (List Nat × BVal)
  | .Request r => [(kQ, .str (reqName r))]
  | .Response r => [(kR, bdict (respArgsL r))]
  | .Error _ => []

/-- Bytes of the y tag. -/
def yTag : DHTMessageVariant → List Nat
  | .Request _ => kQ
  | .Response _ => kR
  | .Error _ => kE

/-- Value of the y tag. -/
def yVal (v : DHTMessageVariant) : BVal := .str (yTag v)

/-- Full message entry list, keys in bencode sorted order:
a, e, ip, q, r, ro, t, v, y. -/
def encodeMsgL (m : DHTMessage) : List (List Nat × BVal) :=
  variantPre m.variant ++
    optEntry kIp (m.ip.map (fun s => .str s)) ++
    variantMid m.variant ++
    optEntry kRo (m.read_only.map (fun i => .int i)) ++
    [(kT, .str m.transaction_id)] ++
    optEntry kV (m.version.map (fun s => .str s)) ++
    [(kY, yVal m.variant)]

/-- Bencode value a DHTMessage serializes to. -/
def encodeMsg (m : DHTMessage) : BVal := bdict (encodeMsgL m)

/-- DHTMessage::to_bytes: serialize to bencode bytes. -/
def DHTMessage.to_bytes (m : DHTMessage) : List Nat := encodeB (encodeMsg m)

/-! ## Deserialization (serde Deserialize derive over serde_bencode)

Struct fields are looked up by key; required fields fail when absent or of
the wrong bencode type, defaulted fields fall back to their default,
unknown keys are ignored (serde's default), and the integer widths of the
Rust types are enforced by range checks. -/

/-- Field lookup in a dictionary spine (first match, as serde visits
entries in order). -/
def bfind (key : List Nat) : BVal → Option BVal
  | .dcons k2 w t => if k2 = key then some w else bfind key t
  | _ => none

def asStr : BVal → Option (List Nat)
  | .str s => some s
  | _ => none

/-- Elements of a list spine. -/
def spineList : BVal → Option (List BVal)
  | .snil => some []
  | .scons v t => (spineList t).map (fun l => v :: l)
  | _ => none

def reqStrF (key : List Nat) (sp : BVal) : Option (List Nat) :=
  match bfind key sp with
  | some b => asStr b
  | none => none

def optStrF (key : List Nat) (sp : BVal) : Option (Option (List Nat)) :=
  match bfind key sp with
  | some b => (asStr b).map some
  | none => some none

def reqIntRangeF (key : List Nat) (lo hi : Int) (sp : BVal) : Option Int :=
  match bfind key sp with
  | some (.int i) => if lo ≤ i ∧ i ≤ hi then some i else none
  | _ => none

def optIntRangeF (key : List Nat) (lo hi : Int) (sp : BVal) : Option (Option Int) :=
  match bfind key sp with
  | some (.int i) => if lo ≤ i ∧ i ≤ hi then some (some i) else none
  | some _ => none
  | none => some none

/-- A Vec of u8 without serde_bytes deserializes from a bencode list of
integers, each checked against the u8 range. -/
def intsToBytes : List BVal → Option (List Nat)
  | [] => some []
  | .int i :: t =>
    if 0 ≤ i ∧ i ≤ 255 then (intsToBytes t).map (fun r => i.toNat :: r) else none
  | _ => none

def optByteListF (key : List Nat) (sp : BVal) : Option (Option (List Nat)) :=
  match bfind key sp with
  | some (.list lsp) =>
    match spineList lsp with
    | some l => (intsToBytes l).map some
    | none => none
  | some _ => none
  | none => some none

/-- A Vec of ByteBuf deserializes from a bencode list of byte strings. -/
def strsOf : List BVal → Option (List (List Nat))
  | [] => some []
  | .str s :: t => (strsOf t).map (fun r => s :: r)
  | _ => none

def optStrListF (key : List Nat) (sp : BVal) : Option (Option (List (List Nat))) :=
  match bfind key sp with
  | some (.list lsp) =>
    match spineList lsp with
    | some l => (strsOf l).map some
    | none => none
  | some _ => none
  | none => some none

def i64lo : Int := -(2 ^ 63)
def i64hi : Int := 2 ^ 63 - 1
def i32lo : Int := -(2 ^ 31)
def i32hi : Int := 2 ^ 31 - 1

def decPingReqArgs (sp : BVal) : Option DHTPingRequestArguments := do
  let i ← reqStrF kId sp
  pure ⟨i⟩

def decFindNodeReqArgs (sp : BVal) : Option DHTFindNodeRequestArguments := do
  let i ← reqStrF kId sp
  let tg ← reqStrF kTarget sp
  pure ⟨i, tg⟩

def decGetPeersReqArgs (sp : BVal) : Option DHTGetPeersRequestArguments := do
  let i ← reqStrF kId sp
  let ih ← reqStrF kInfoHash sp
  pure ⟨i, ih⟩

def decAnnouncePeerReqArgs (sp : BVal) : Option DHTAnnouncePeerRequestArguments := do
  let i ← reqStrF kId sp
  let ih ← reqStrF kInfoHash sp
  let p ← reqIntRangeF kPort 0 65535 sp
  let tok ← reqStrF kToken sp
  let imp ← optIntRangeF kImpliedPort 0 255 sp
  pure ⟨i, ih, p.toNat, tok, imp.map Int.toNat⟩

def decGetValueReqArgs (sp : BVal) : Option DHTGetValueArguments := do
  let i ← reqStrF kId sp
  let tg ← reqStrF kTarget sp
  pure ⟨i, tg⟩

def decPingRespArgs (sp : BVal) : Option DHTPingResponseArguments := do
  let i ← reqStrF kId sp
  pure ⟨i⟩

def decFindNodeRespArgs (sp : BVal) : Option DHTFindNodeResponseArguments := do
  let i ← reqStrF kId sp
  let nds ← reqStrF kNodes sp
  pure ⟨i, nds⟩

def decGetPeersRespArgs (sp : BVal) : Option DHTGetPeersResponseArguments := do
  let i ← reqStrF kId sp
  let tok ← reqStrF kToken sp
  let nds ← optStrF kNodes sp
  let vals ← optStrListF kValues sp
  pure ⟨i, tok, nds, vals⟩

def decGetValueRespArgs (sp : BVal) : Option DHTGetValueResponseArguments := do
  let i ← reqStrF kId sp
  let tok ← reqStrF kToken sp
  let nds ← optStrF kNodes sp
  let vv ← (match bfind kV sp with
    | some b => asStr b
    | none => some [])
  let kk ← optByteListF kK sp
  let sg ← optStrF kSig sp
  let sq ← optIntRangeF kSeq i64lo i64hi sp
  pure ⟨i, tok, nds, vv, kk, sg, sq⟩

/-- Internally tagged on q; no put variant exists, so any other method
name (including put) is rejected. -/
def decodeRequest (sp : BVal) : Option DHTRequestSpecific := do
  let q ← reqStrF kQ sp
  let asp ← (match bfind kA sp with
    | some (.dict d) => some d
    | _ => none)
  if q = mPing then (decPingReqArgs asp).map .Ping
  else if q = mFindNode then (decFindNodeReqArgs asp).map .FindNode
  else if q = mGetPeers then (decGetPeersReqArgs asp).map .GetPeers
  else if q = mAnnouncePeer then (decAnnouncePeerReqArgs asp).map .AnnouncePeer
  else if q = mGetValue then (decGetValueReqArgs asp).map .GetValue
  else none

/-- Untagged responses: try the variants in declaration order and keep the
first that deserializes (GetValue, GetPeers, FindNode, Ping). -/
def decodeResponse (sp : BVal) : Option DHTResponseSpecific := do
  let rsp ← (match bfind kR sp with
    | some (.dict d) => some d
    | _ => none)
  match decGetValueRespArgs rsp with
  | some a => some (.GetValue a)
  | none =>
    match decGetPeersRespArgs rsp with
    | some a => some (.GetPeers a)
    | none =>
      match decFindNodeRespArgs rsp with
      | some a => some (.FindNode a)
      | none => (decPingRespArgs rsp).map .Ping

/-- Deserialize a DHTMessage from a bencode value: top-level fields t, v,
ip, ro plus the variant flattened in, tagged by y. -/
def decodeMsg (b : BVal) : Option DHTMessage := do
  let sp ← (match b with
    | .dict d => some d
    | _ => none)
  let t ← reqStrF kT sp
  let ver ← optStrF kV sp
  let ipf ← optStrF kIp sp
  let ro ← optIntRangeF kRo i32lo i32hi sp
  let y ← reqStrF kY sp
  let var ←
    (if y = kQ then (decodeRequest sp).map .Request
     else if y = kR then (decodeResponse sp).map .Response
     else if y = kE then
       match bfind kE sp with
       | some (.list esp) => (spineList esp).map (fun l => DHTMessageVariant.Error ⟨l⟩)
       | _ => none
     else none)
  pure ⟨t, ver, var, ipf, ro⟩

/-- DHTMessage::from_bytes: parse bencode bytes, then deserialize. -/
def DHTMessage.from_bytes (bs : List Nat) : Option DHTMessage :=
  (parseBencode bs).bind decodeMsg

/-- Range invariants of the Rust field types (u16 port, u8 implied_port
and k bytes, i64 seq, i32 read_only), plus wellformedness of the raw
bencode values carried by an error message. All hold by construction for
every value of the Rust types. -/
def wfVariant : DHTMessageVariant → Bool
  | .Request (.AnnouncePeer a) =>
    decide (a.port ≤ 65535) &&
      (match a.implied_port with
       | some x => decide (x ≤ 255)
       | none => true)
  | .Request _ => true
  | .Response (.GetValue a) =>
    (match a.k with
     | some l => l.all (fun x => decide (x ≤ 255))
     | none => true) &&
      (match a.seq with
       | some s => decide (i64lo ≤ s ∧ s ≤ i64hi)
       | none => true)
  | .Response _ => true
  | .Error e => e.error_info.all (fun b => wfB .v b)

def wfMsg (m : DHTMessage) : Bool :=
  wfVariant m.variant &&
    (match m.read_only with
     | some i => decide (i32lo ≤ i ∧ i ≤ i32hi)
     | none => true)

/-- Discriminator for the one variant on which the round-trip breaks. -/
def DHTMessage.isGetPeersResponse (m : DHTMessage) : Bool :=
  match m.variant with
  | .Response (.GetPeers _) => true
  | _ => false

/-! ## Round-trip of the message layer -/

/-- Field lookup at the entry-list level. -/
def entFind (key : List Nat) : List (List Nat × BVal) → Option BVal
  | [] => none
  | (k2, w) :: t => if k2 = key then some w else entFind key t

theorem bfind_dspineOf (key : List Nat) (l : List (List Nat × BVal)) :
    bfind key (dspineOf l) = entFind key l := by
  induction l with
  | nil => simp [dspineOf, bfind, entFind]
  | cons p t ih =>
    cases p with
    | mk k2 w => simp [dspineOf, bfind, entFind, ih]

theorem spineList_sspineOf (l : List BVal) : spineList (sspineOf l) = some l := by
  induction l with
  | nil => simp [sspineOf, spineList]
  | cons v t ih => simp [sspineOf, spineList, ih]

theorem intsToBytes_map (l : List Nat) (h : ∀ x ∈ l, x ≤ 255) :
    intsToBytes (l.map (fun (x : Nat) => BVal.int (x : Int))) = some l := by
  induction l with
  | nil => simp [intsToBytes]
  | cons x t ih =>
    have hx : x ≤ 255 := h x (by simp)
    rw [List.map_cons]
    simp only [intsToBytes]
    rw [if_pos (by omega)]
    rw [ih (fun y hy => h y (by simp [hy]))]
    simp

theorem strsOf_map (l : List (List Nat)) :
    strsOf (l.map (fun s => .str s)) = some l := by
  induction l with
  | nil => simp [strsOf]
  | cons x t ih =>
    rw [List.map_cons]
    simp only [strsOf]
    rw [ih]
    simp

theorem wfB_dspineOf (l : List (List Nat × BVal)) :
    wfB .d (dspineOf l) = l.all (fun p => wfB .v p.2) := by
  induction l with
  | nil => simp [dspineOf, wfB]
  | cons p t ih =>
    cases p with
    | mk k2 w => simp [dspineOf, wfB, ih]

theorem wfB_sspineOf (l : List BVal) :
    wfB .s (sspineOf l) = l.all (fun b => wfB .v b) := by
  induction l with
  | nil => simp [sspineOf, wfB]
  | cons v t ih => simp [sspineOf, wfB, ih]

theorem optEntry_all (q : List Nat × BVal → Bool) (k : List Nat) (o : Option BVal) :
    (optEntry k o).all q = (o.map (fun v => q (k, v))).getD true := by
  cases o <;> simp [optEntry]

theorem optTrue {A : Type} (o : Option A) :
    (o.map (fun _ => true)).getD true = true := by
  cases o <;> simp

theorem listAllTrue {A : Type} (l : List A) : (l.all (fun _ => true)) = true := by
  simp

theorem allIntWf (l : List Nat) :
    ((l.map (fun (x : Nat) => BVal.int (x : Int))).all (fun v => wfB .v v)) = true := by
  induction l with
  | nil => simp
  | cons x t ih => simp_all [wfB]

theorem allStrWf (l : List (List Nat)) :
    ((l.map (fun s => BVal.str s)).all (fun v => wfB .v v)) = true := by
  induction l with
  | nil => simp
  | cons x t ih => simp_all [wfB]

theorem wfB_encodeMsg (m : DHTMessage) (h : wfMsg m = true) :
    wfB .v (encodeMsg m) = true := by
  obtain ⟨t, ver, var, ip, ro⟩ := m
  have hv : wfVariant var = true := by
    simp only [wfMsg, Bool.and_eq_true] at h
    exact h.1
  simp only [encodeMsg, bdict, encodeMsgL, wfB, wfB_dspineOf]
  cases var with
  | Request r =>
    cases r <;>
      simp [variantPre, variantMid, yVal, optEntry_all, Option.map_map, wfB, optTrue,
        listAllTrue, bdict, wfB_dspineOf, blist, wfB_sspineOf, List.all_map,
        encPingReqArgsL, encFindNodeReqArgsL, encGetPeersReqArgsL,
        encAnnouncePeerReqArgsL, encGetValueReqArgsL, Function.comp_def]
  | Response r =>
    cases r <;>
      simp [variantPre, variantMid, yVal, optEntry_all, Option.map_map, wfB, optTrue,
        listAllTrue, bdict, wfB_dspineOf, blist, wfB_sspineOf, List.all_map,
        encPingRespArgsL, encFindNodeRespArgsL, encGetPeersRespArgsL,
        encGetValueRespArgsL, Function.comp_def, allIntWf, allStrWf]
  | Error e =>
    simp only [wfVariant] at hv
    simp [variantPre, variantMid, yVal, optEntry_all, Option.map_map, wfB, optTrue,
      listAllTrue, blist, wfB_sspineOf, hv, Function.comp_def]

theorem decPing_enc (a : DHTPingRequestArguments) :
    decPingReqArgs (dspineOf (encPingReqArgsL a)) = some a := by
  simp [decPingReqArgs, encPingReqArgsL, reqStrF, bfind_dspineOf, entFind, asStr]

theorem decFindNodeReq_enc (a : DHTFindNodeRequestArguments) :
    decFindNodeReqArgs (dspineOf (encFindNodeReqArgsL a)) = some a := by
  simp [decFindNodeReqArgs, encFindNodeReqArgsL, reqStrF, bfind_dspineOf, entFind,
    asStr, kId, kTarget]

theorem decGetPeersReq_enc (a : DHTGetPeersRequestArguments) :
    decGetPeersReqArgs (dspineOf (encGetPeersReqArgsL a)) = some a := by
  simp [decGetPeersReqArgs, encGetPeersReqArgsL, reqStrF, bfind_dspineOf, entFind,
    asStr, kId, kInfoHash]

theorem decGetValueReq_enc (a : DHTGetValueArguments) :
    decGetValueReqArgs (dspineOf (encGetValueReqArgsL a)) = some a := by
  simp [decGetValueReqArgs, encGetValueReqArgsL, reqStrF, bfind_dspineOf, entFind,
    asStr, kId, kTarget]

theorem decAnnounce_enc (a : DHTAnnouncePeerRequestArguments)
    (hp : a.port ≤ 65535) (hi : ∀ x, a.implied_port = some x → x ≤ 255) :
    decAnnouncePeerReqArgs (dspineOf (encAnnouncePeerReqArgsL a)) = some a := by
  obtain ⟨i, ih, p, tok, imp⟩ := a
  cases imp with
  | none =>
    simp_all [decAnnouncePeerReqArgs, encAnnouncePeerReqArgsL, reqStrF, optStrF,
      reqIntRangeF, optIntRangeF, bfind_dspineOf, entFind, asStr, optEntry,
      kId, kInfoHash, kPort, kToken, kImpliedPort]
  | some x =>
    have hx : x ≤ 255 := hi x rfl
    simp_all [decAnnouncePeerReqArgs, encAnnouncePeerReqArgsL, reqStrF, optStrF,
      reqIntRangeF, optIntRangeF, bfind_dspineOf, entFind, asStr, optEntry,
      kId, kInfoHash, kPort, kToken, kImpliedPort]

theorem decPingResp_enc (a : DHTPingResponseArguments) :
    decPingRespArgs (dspineOf (encPingRespArgsL a)) = some a := by
  simp [decPingRespArgs, encPingRespArgsL, reqStrF, bfind_dspineOf, entFind, asStr]

theorem decFindNodeResp_enc (a : DHTFindNodeResponseArguments) :
    decFindNodeRespArgs (dspineOf (encFindNodeRespArgsL a)) = some a := by
  simp [decFindNodeRespArgs, encFindNodeRespArgsL, reqStrF, bfind_dspineOf, entFind,
    asStr, kId, kNodes]

theorem decGetValueResp_enc (a : DHTGetValueResponseArguments)
    (hk : (match a.k with
      | some l => l.all (fun x => decide (x ≤ 255))
      | none => true) = true)
    (hs : (match a.seq with
      | some s => decide (i64lo ≤ s ∧ s ≤ i64hi)
      | none => true) = true) :
    decGetValueRespArgs (dspineOf (encGetValueRespArgsL a)) = some a := by
  obtain ⟨i, tok, nds, vv, kk, sg, sq⟩ := a
  cases kk with
  | none =>
    cases nds <;> cases sg <;> cases sq <;>
      simp_all [decGetValueRespArgs, encGetValueRespArgsL, reqStrF, optStrF,
        optIntRangeF, optByteListF, bfind_dspineOf, entFind, asStr, optEntry, blist,
        spineList_sspineOf, kId, kToken, kNodes, kV, kK, kSig, kSeq]
  | some l =>
    have hl : ∀ x ∈ l, x ≤ 255 := by
      intro x hx
      have := List.all_eq_true.1 hk x hx
      simpa using this
    cases nds <;> cases sg <;> cases sq <;>
      simp_all [decGetValueRespArgs, encGetValueRespArgsL, reqStrF, optStrF,
        optIntRangeF, optByteListF, bfind_dspineOf, entFind, asStr, optEntry, blist,
        spineList_sspineOf, intsToBytes_map l hl, kId, kToken, kNodes, kV, kK, kSig, kSeq]

theorem decGVfail_fn (a : DHTFindNodeResponseArguments) :
    decGetValueRespArgs (dspineOf (encFindNodeRespArgsL a)) = none := by
  simp [decGetValueRespArgs, encFindNodeRespArgsL, reqStrF, bfind_dspineOf, entFind,
    asStr, kId, kToken, kNodes]

theorem decGPfail_fn (a : DHTFindNodeResponseArguments) :
    decGetPeersRespArgs (dspineOf (encFindNodeRespArgsL a)) = none := by
  simp [decGetPeersRespArgs, encFindNodeRespArgsL, reqStrF, bfind_dspineOf, entFind,
    asStr, kId, kToken, kNodes]

theorem decGVfail_ping (a : DHTPingResponseArguments) :
    decGetValueRespArgs (dspineOf (encPingRespArgsL a)) = none := by
  simp [decGetValueRespArgs, encPingRespArgsL, reqStrF, bfind_dspineOf, entFind,
    asStr, kId, kToken]

theorem decGPfail_ping (a : DHTPingResponseArguments) :
    decGetPeersRespArgs (dspineOf (encPingRespArgsL a)) = none := by
  simp [decGetPeersRespArgs, encPingRespArgsL, reqStrF, bfind_dspineOf, entFind,
    asStr, kId, kToken]

theorem decFNfail_ping (a : DHTPingResponseArguments) :
    decFindNodeRespArgs (dspineOf (encPingRespArgsL a)) = none := by
  simp [decFindNodeRespArgs, encPingRespArgsL, reqStrF, bfind_dspineOf, entFind,
    asStr, kId, kNodes]


theorem entFind_optEntry_ne (key k2 : List Nat) (o : Option BVal) (h : ¬k2 = key) :
    entFind key (optEntry k2 o ++ [] ) = none := by
  cases o <;> simp [optEntry, entFind, h]

theorem entFind_append (key : List Nat) (l1 l2 : List (List Nat × BVal)) :
    entFind key (l1 ++ l2) =
      (match entFind key l1 with
       | some w => some w
       | none => entFind key l2) := by
  induction l1 with
  | nil => simp [entFind]
  | cons p tl ih =>
    cases p with
    | mk k2 w =>
      by_cases h : k2 = key <;> simp [entFind, h, ih]

theorem entFind_optEntry_skip (key k2 : List Nat) (o : Option BVal)
    (l : List (List Nat × BVal)) (h : ¬k2 = key) :
    entFind key (optEntry k2 o ++ l) = entFind key l := by
  cases o <;> simp [optEntry, entFind, h]

theorem entFind_optEntry_self (key : List Nat) (o : Option BVal)
    (l : List (List Nat × BVal)) (hro : entFind key l = none) :
    entFind key (optEntry key o ++ l) = o := by
  cases o <;> simp [optEntry, entFind, hro]

theorem lookT (t : List Nat) (ver : Option (List Nat)) (var : DHTMessageVariant)
    (ip : Option (List Nat)) (ro : Option Int) :
    bfind kT (dspineOf (encodeMsgL ⟨t, ver, var, ip, ro⟩)) = some (.str t) := by
  rw [bfind_dspineOf]
  cases var <;>
    simp [encodeMsgL, variantPre, variantMid, entFind_append, entFind,
      entFind_optEntry_skip, kT, kA, kE, kIp, kQ, kR, kRo, entFind_optEntry_ne] <;>
    cases ip <;> cases ro <;> simp [optEntry, entFind, kT, kIp, kQ, kR, kRo]

theorem lookV (t : List Nat) (ver : Option (List Nat)) (var : DHTMessageVariant)
    (ip : Option (List Nat)) (ro : Option Int) :
    bfind kV (dspineOf (encodeMsgL ⟨t, ver, var, ip, ro⟩)) =
      ver.map (fun s => BVal.str s) := by
  rw [bfind_dspineOf]
  cases var <;> cases ip <;> cases ro <;> cases ver <;>
    simp [encodeMsgL, variantPre, variantMid, optEntry, entFind,
      kV, kA, kE, kIp, kQ, kR, kRo, kT, kY]

theorem lookIp (t : List Nat) (ver : Option (List Nat)) (var : DHTMessageVariant)
    (ip : Option (List Nat)) (ro : Option Int) :
    bfind kIp (dspineOf (encodeMsgL ⟨t, ver, var, ip, ro⟩)) =
      ip.map (fun s => BVal.str s) := by
  rw [bfind_dspineOf]
  cases var <;> cases ip <;> cases ro <;> cases ver <;>
    simp [encodeMsgL, variantPre, variantMid, optEntry, entFind,
      kV, kA, kE, kIp, kQ, kR, kRo, kT, kY]

theorem lookRo (t : List Nat) (ver : Option (List Nat)) (var : DHTMessageVariant)
    (ip : Option (List Nat)) (ro : Option Int) :
    bfind kRo (dspineOf (encodeMsgL ⟨t, ver, var, ip, ro⟩)) =
      ro.map (fun i => BVal.int i) := by
  rw [bfind_dspineOf]
  cases var <;> cases ip <;> cases ro <;> cases ver <;>
    simp [encodeMsgL, variantPre, variantMid, optEntry, entFind,
      kV, kA, kE, kIp, kQ, kR, kRo, kT, kY]

theorem lookY (t : List Nat) (ver : Option (List Nat)) (var : DHTMessageVariant)
    (ip : Option (List Nat)) (ro : Option Int) :
    bfind kY (dspineOf (encodeMsgL ⟨t, ver, var, ip, ro⟩)) = some (yVal var) := by
  rw [bfind_dspineOf]
  cases var <;> cases ip <;> cases ro <;> cases ver <;>
    simp [encodeMsgL, variantPre, variantMid, optEntry, entFind,
      kV, kA, kE, kIp, kQ, kR, kRo, kT, kY]

theorem lookQ (t : List Nat) (ver : Option (List Nat)) (r : DHTRequestSpecific)
    (ip : Option (List Nat)) (ro : Option Int) :
    bfind kQ (dspineOf (encodeMsgL ⟨t, ver, .Request r, ip, ro⟩)) =
      some (.str (reqName r)) := by
  rw [bfind_dspineOf]
  cases ip <;>
    simp [encodeMsgL, variantPre, variantMid, optEntry, entFind, kA, kIp, kQ]

theorem lookA (t : List Nat) (ver : Option (List Nat)) (r : DHTRequestSpecific)
    (ip : Option (List Nat)) (ro : Option Int) :
    bfind kA (dspineOf (encodeMsgL ⟨t, ver, .Request r, ip, ro⟩)) =
      some (.dict (dspineOf (reqArgsL r))) := by
  rw [bfind_dspineOf]
  simp [encodeMsgL, variantPre, bdict, entFind]

theorem lookR (t : List Nat) (ver : Option (List Nat)) (r : DHTResponseSpecific)
    (ip : Option (List Nat)) (ro : Option Int) :
    bfind kR (dspineOf (encodeMsgL ⟨t, ver, .Response r, ip, ro⟩)) =
      some (.dict (dspineOf (respArgsL r))) := by
  rw [bfind_dspineOf]
  cases ip <;>
    simp [encodeMsgL, variantPre, variantMid, bdict, optEntry, entFind, kIp, kR]

theorem lookE (t : List Nat) (ver : Option (List Nat)) (e : DHTErrorSpecific)
    (ip : Option (List Nat)) (ro : Option Int) :
    bfind kE (dspineOf (encodeMsgL ⟨t, ver, .Error e, ip, ro⟩)) =
      some (.list (sspineOf e.error_info)) := by
  rw [bfind_dspineOf]
  simp [encodeMsgL, variantPre, blist, entFind]

theorem optStrF_eq (key : List Nat) (sp : BVal) (o : Option (List Nat))
    (h : bfind key sp = o.map (fun s => BVal.str s)) : optStrF key sp = some o := by
  cases o <;> simp [optStrF, asStr, h]

theorem optIntRangeF_eq (key : List Nat) (lo hi : Int) (sp : BVal) (o : Option Int)
    (h : bfind key sp = o.map (fun i => BVal.int i))
    (hb : ∀ i, o = some i → lo ≤ i ∧ i ≤ hi) :
    optIntRangeF key lo hi sp = some o := by
  cases o with
  | none => simp [optIntRangeF, h]
  | some i => simp [optIntRangeF, h, hb i rfl]

theorem decodeMsg_encodeMsg (m : DHTMessage) (hwf : wfMsg m = true)
    (hgp : m.isGetPeersResponse = false) :
    decodeMsg (encodeMsg m) = some m := by
  obtain ⟨t, ver, var, ip, ro⟩ := m
  simp only [wfMsg, Bool.and_eq_true] at hwf
  obtain ⟨hv, hro⟩ := hwf
  have hb : ∀ i, ro = some i → i32lo ≤ i ∧ i ≤ i32hi := by
    intro i hi
    rw [hi] at hro
    simpa using hro
  have hT : reqStrF kT (dspineOf (encodeMsgL ⟨t, ver, var, ip, ro⟩)) = some t := by
    simp [reqStrF, lookT, asStr]
  have hV : optStrF kV (dspineOf (encodeMsgL ⟨t, ver, var, ip, ro⟩)) = some ver :=
    optStrF_eq _ _ _ (lookV t ver var ip ro)
  have hIp : optStrF kIp (dspineOf (encodeMsgL ⟨t, ver, var, ip, ro⟩)) = some ip :=
    optStrF_eq _ _ _ (lookIp t ver var ip ro)
  have hRo : optIntRangeF kRo i32lo i32hi (dspineOf (encodeMsgL ⟨t, ver, var, ip, ro⟩)) =
      some ro :=
    optIntRangeF_eq _ _ _ _ _ (lookRo t ver var ip ro) hb
  have hY : reqStrF kY (dspineOf (encodeMsgL ⟨t, ver, var, ip, ro⟩)) =
      some (yTag var) := by
    simp [reqStrF, lookY, asStr, yVal]
  cases var with
  | Request r =>
    have hQ : reqStrF kQ (dspineOf (encodeMsgL ⟨t, ver, .Request r, ip, ro⟩)) =
        some (reqName r) := by
      simp [reqStrF, lookQ, asStr]
    have hA := lookA t ver r ip ro
    have hreq : decodeRequest (dspineOf (encodeMsgL ⟨t, ver, .Request r, ip, ro⟩)) =
        some r := by
      cases r with
      | Ping a =>
        simp [decodeRequest, hQ, hA, reqName, reqArgsL, decPing_enc,
          mPing, mFindNode, mGetPeers, mAnnouncePeer, mGetValue]
      | FindNode a =>
        simp [decodeRequest, hQ, hA, reqName, reqArgsL, decFindNodeReq_enc,
          mPing, mFindNode, mGetPeers, mAnnouncePeer, mGetValue]
      | GetPeers a =>
        simp [decodeRequest, hQ, hA, reqName, reqArgsL, decGetPeersReq_enc,
          mPing, mFindNode, mGetPeers, mAnnouncePeer, mGetValue]
      | AnnouncePeer a =>
        simp only [wfVariant, Bool.and_eq_true] at hv
        have hda := decAnnounce_enc a (by simpa using hv.1) (by
          intro x hx
          have h2 := hv.2
          rw [hx] at h2
          simpa using h2)
        simp [decodeRequest, hQ, hA, reqName, reqArgsL, hda,
          mPing, mFindNode, mGetPeers, mAnnouncePeer, mGetValue]
      | GetValue a =>
        simp [decodeRequest, hQ, hA, reqName, reqArgsL, decGetValueReq_enc,
          mPing, mFindNode, mGetPeers, mAnnouncePeer, mGetValue]
    simp [decodeMsg, encodeMsg, bdict, hT, hV, hIp, hRo, hY, hreq, yTag,
      kQ, kR, kE]
  | Response r =>
    have hR := lookR t ver r ip ro
    have hresp : decodeResponse (dspineOf (encodeMsgL ⟨t, ver, .Response r, ip, ro⟩)) =
        some r := by
      cases r with
      | GetValue a =>
        simp only [wfVariant, Bool.and_eq_true] at hv
        have hd := decGetValueResp_enc a hv.1 hv.2
        simp [decodeResponse, hR, respArgsL, hd]
      | GetPeers a => simp [DHTMessage.isGetPeersResponse] at hgp
      | FindNode a =>
        simp [decodeResponse, hR, respArgsL, decGVfail_fn, decGPfail_fn,
          decFindNodeResp_enc]
      | Ping a =>
        simp [decodeResponse, hR, respArgsL, decGVfail_ping, decGPfail_ping,
          decFNfail_ping, decPingResp_enc]
    simp [decodeMsg, encodeMsg, bdict, hT, hV, hIp, hRo, hY, hresp, yTag,
      kQ, kR, kE]
  | Error e =>
    have hE := lookE t ver e ip ro
    simp only [kE] at hE
    simp [decodeMsg, encodeMsg, bdict, hT, hV, hIp, hRo, hY, hE, yTag,
      spineList_sspineOf, kQ, kR, kE]

/-! ## SHA1

Modelled from the spec: hash_immutable of src/common (not part of the
source slice) computes the SHA1 digest of the value bytes; the target of
an immutable item is SHA1 of the bytes. The implementation below is the
standard SHA1 compression function, fueled where needed so that every
definition is kernel-reducible. -/

def rotl (k n : Nat) : Nat := ((n <<< k) % 4294967296) ||| (n >>> (32 - k))

/-- Big-endian 32-bit words from bytes. -/
def bytesToWords : List Nat → List Nat
  | b0 :: b1 :: b2 :: b3 :: rest =>
    (((b0 * 256 + b1) * 256 + b2) * 256 + b3) :: bytesToWords rest
  | _ => []

def word32be (n : Nat) : List Nat :=
  [n / 16777216 % 256, n / 65536 % 256, n / 256 % 256, n % 256]

def word64be (n : Nat) : List Nat :=
  word32be (n / 4294967296) ++ word32be (n % 4294967296)

/-- SHA1 padding: 0x80, zeros to 56 mod 64, 8-byte big-endian bit length. -/
def sha1Pad (msg : List Nat) : List Nat :=
  msg ++ 128 :: List.replicate ((119 - (msg.length % 64)) % 64) 0 ++
    word64be (8 * msg.length)

/-- Extend 16 words to 80, keeping the schedule in reverse order. -/
def sha1Extend : Nat → List Nat → List Nat
  | 0, acc => acc
  | n + 1, acc =>
    sha1Extend n
      (rotl 1 (((acc.getD 2 0 ^^^ acc.getD 7 0) ^^^ acc.getD 13 0) ^^^ acc.getD 15 0)
        :: acc)

def sha1F (i b c d : Nat) : Nat :=
  if i < 20 then (b &&& c) ||| ((b ^^^ 4294967295) &&& d)
  else if i < 40 then (b ^^^ c) ^^^ d
  else if i < 60 then ((b &&& c) ||| (b &&& d)) ||| (c &&& d)
  else (b ^^^ c) ^^^ d

def sha1K (i : Nat) : Nat :=
  if i < 20 then 1518500249
  else if i < 40 then 1859775393
  else if i < 60 then 2400959708
  else 3395469782

def sha1Rounds : Nat → List Nat → Nat × Nat × Nat × Nat × Nat → Nat × Nat × Nat × Nat × Nat
  | _, [], st => st
  | i, w :: ws, (a, b, c, d, e) =>
    sha1Rounds (i + 1) ws
      ((rotl 5 a + sha1F i b c d + e + sha1K i + w) % 4294967296, a, rotl 30 b, c, d)

def sha1Chunk (h : Nat × Nat × Nat × Nat × Nat) (chunk : List Nat) :
    Nat × Nat × Nat × Nat × Nat :=
  match h with
  | (h0, h1, h2, h3, h4) =>
    match sha1Rounds 0 ((sha1Extend 64 (bytesToWords chunk).reverse).reverse)
        (h0, h1, h2, h3, h4) with
    | (a, b, c, d, e) =>
      ((h0 + a) % 4294967296, (h1 + b) % 4294967296, (h2 + c) % 4294967296,
        (h3 + d) % 4294967296, (h4 + e) % 4294967296)

def sha1ChunksAux : Nat → Nat × Nat × Nat × Nat × Nat → List Nat →
    Nat × Nat × Nat × Nat × Nat
  | 0, h, _ => h
  | fuel + 1, h, bs =>
    if bs = [] then h
    else sha1ChunksAux fuel (sha1Chunk h (bs.take 64)) (bs.drop 64)

def sha1 (msg : List Nat) : List Nat :=
  match sha1ChunksAux (msg.length + 65)
      (1732584193, 4023233417, 2562383102, 271733878, 3285377520) (sha1Pad msg) with
  | (h0, h1, h2, h3, h4) =>
    word32be h0 ++ word32be h1 ++ word32be h2 ++ word32be h3 ++ word32be h4

/-- Modelled from the spec: hash_immutable of src/common computes the
target of an immutable item, the SHA1 digest of the bencoded value
(length-prefixed byte string, per BEP-44); the spec fixes the digest of
the value Hello World! as e5f96f6f38320f0f33959cb4d3d656452117aadb. -/
def hash_immutable (v : List Nat) : List Nat :=
  sha1 (encNat v.length ++ 58 :: v)

/-! ## Actor and facade model (src/dht.rs)

The facade (Dht) holds the send side of an unbounded flume channel; a
dedicated actor thread runs the loop in the run function. Channels are
modelled by numeric identities; delivering into a channel, dropping a
sender and a closed queue are modelled explicitly. The Rpc type lives
outside the source slice, so its put/get/tick behavior is modelled from
the spec where a claim needs it. -/

abbrev DhtId := List Nat

/-- Socket address (ip, port). -/
abbrev SockAddr := Nat × Nat

/-- Mutable item as carried by the mutable response sink. -/
structure MItem where
  value : List Nat
  seq : Int
deriving DecidableEq, Repr

/-- rpc::Response variants routed by the dispatcher in src/dht.rs. -/
inductive Response where
  | Peers : List SockAddr → Response
  | Mutable : MItem → Response
  | Immutable : List Nat → Response
deriving DecidableEq, Repr

/-- ResponseSender (src/dht.rs): the four typed sinks; the Nat is the
identity of the underlying flume channel. -/
inductive ResponseSender where
  | ClosestNodes : Nat → ResponseSender
  | Peers : Nat → ResponseSender
  | Mutable : Nat → ResponseSender
  | Immutable : Nat → ResponseSender
deriving DecidableEq, Repr

/-- A message delivered into a sink channel. -/
inductive Delivery where
  | Peers : Nat → List SockAddr → Delivery
  | Mutable : Nat → MItem → Delivery
  | Immutable : Nat → List Nat → Delivery
deriving DecidableEq, Repr

/-- The dispatch helper send of src/dht.rs (lines 472-485): deliver the
response into the sink when the variants line up, silently drop it
otherwise (the catch-all arm). -/
def send : ResponseSender → Response → Option Delivery
  | .Peers s, .Peers r => some (.Peers s r)
  | .Mutable s, .Mutable r => some (.Mutable s r)
  | .Immutable s, .Immutable r => some (.Immutable s r)
  | _, _ => none

/-- Kind tags used to state the routing property. -/
inductive SinkKind where
  | closestNodes : SinkKind
  | peers : SinkKind
  | mutableK : SinkKind
  | immutableK : SinkKind
deriving DecidableEq, Repr

def sinkKind : ResponseSender → SinkKind
  | .ClosestNodes _ => .closestNodes
  | .Peers _ => .peers
  | .Mutable _ => .mutableK
  | .Immutable _ => .immutableK

def responseKind : Response → SinkKind
  | .Peers _ => .peers
  | .Mutable _ => .mutableK
  | .Immutable _ => .immutableK

/-- Channel identity of a sink. -/
def sinkId : ResponseSender → Nat
  | .ClosestNodes s => s
  | .Peers s => s
  | .Mutable s => s
  | .Immutable s => s

/-- AnnouncePeerRequestArguments as constructed by Dht::announce_peer. -/
structure AnnouncePeerRequestArgumentsM where
  info_hash : DhtId
  port : Nat
  implied_port : Option Bool
deriving DecidableEq, Repr

/-- PutRequestSpecific as constructed by the facade put methods. -/
inductive PutRequestM where
  | AnnouncePeer : AnnouncePeerRequestArgumentsM → PutRequestM
  | PutImmutable : DhtId → List Nat → PutRequestM
  | PutMutable : DhtId → List Nat → Int → PutRequestM
deriving DecidableEq, Repr

/-- RequestTypeSpecific as constructed by the facade get methods. -/
inductive GetRequestM where
  | FindNode : DhtId → GetRequestM
  | GetPeers : DhtId → GetRequestM
  | GetValue : DhtId → Option Int → GetRequestM
deriving DecidableEq, Repr

/-- ActorMessage (src/dht.rs lines 487-493); each reply sender is a
channel identity. -/
inductive ActorMessageM where
  | Info : Nat → ActorMessageM
  | Put : DhtId → PutRequestM → Nat → ActorMessageM
  | Get : DhtId → GetRequestM → ResponseSender → ActorMessageM
  | Shutdown : Nat → ActorMessageM
  | Check : Nat → ActorMessageM
deriving DecidableEq, Repr

/-- The port and implied_port chosen by Dht::announce_peer (lines
268-271): an explicit port is used as is, otherwise port 0 with
implied_port set, so remote nodes use the UDP source port. -/
def announcePortChoice : Option Nat → Nat × Option Bool
  | some port => (port, none)
  | none => (0, some true)

/-- The request Dht::announce_peer submits to the actor (lines 273-281). -/
def announcePeerRequest (info_hash : DhtId) (port : Option Nat) :
    AnnouncePeerRequestArgumentsM :=
  ⟨info_hash, (announcePortChoice port).1, (announcePortChoice port).2⟩

/-! ### The actor loop exit condition (claim about run, lines 392-429) -/

/-- Result of flume try_recv: a message, an empty open queue, or a
disconnected queue (every facade handle dropped). -/
inductive TryRecvResult where
  | ok : ActorMessageM → TryRecvResult
  | empty : TryRecvResult
  | disconnected : TryRecvResult
deriving DecidableEq, Repr

def TryRecvResult.isShutdownMsg : TryRecvResult → Bool
  | .ok (.Shutdown _) => true
  | _ => false

/-- Outcome of one iteration of the actor loop. -/
inductive LoopStep where
  | exit : LoopStep
  | tick : LoopStep
deriving DecidableEq, Repr

/-- One iteration of the loop in run: the code matches only
Ok(actor_message) from try_recv (if let), so Err(Empty) and
Err(Disconnected) fall through alike to rpc.tick() and the loop
continues; only a received Shutdown message breaks. -/
def loopIteration : TryRecvResult → LoopStep
  | .ok (.Shutdown _) => .exit
  | .ok _ => .tick
  | .empty => .tick
  | .disconnected => .tick

/-! ### Facade calls after shutdown (claim about every public method) -/

/-- State of the actor message queue: live while the actor thread holds
the receiver, closed once the receiver is dropped (Shutdown handling at
line 396 drops it and breaks the loop, then the thread exits). -/
inductive ChannelState where
  | live : ChannelState
  | closed : ChannelState
deriving DecidableEq, Repr

/-- The queue state after the actor processed Shutdown: the receiver is
dropped before replying, so every later send fails. -/
def actorAfterShutdown : ChannelState := .closed

structure DhtWasShutdownM where
deriving DecidableEq, Repr

/-- flume Sender::send succeeds iff the receiver is still alive. -/
def chanSend : ChannelState → ActorMessageM → Except DhtWasShutdownM Unit
  | .live, _ => .ok ()
  | .closed, _ => .error ⟨⟩

/-- Immediate result of a facade call: the send side of each method is
self.0.send(...).map_err(|_| DhtWasShutdown)?, so a failed send returns
the Shutdown error without blocking. -/
inductive CallResult where
  | completed : CallResult
  | shutdownErr : CallResult
deriving DecidableEq, Repr

def callViaChannel (st : ChannelState) (msg : ActorMessageM) : CallResult :=
  match chanSend st msg with
  | .error _ => .shutdownErr
  | .ok _ => .completed

/-- The public facade methods of Dht. -/
inductive FacadeMethod where
  | info : FacadeMethod
  | find_node : FacadeMethod
  | get_peers : FacadeMethod
  | get_immutable : FacadeMethod
  | put_immutable : FacadeMethod
  | get_mutable : FacadeMethod
  | put_mutable : FacadeMethod
  | announce_peer : FacadeMethod
deriving DecidableEq, Repr

/-- The actor message each facade method submits, with its arguments
abstracted to a target id x and a value v (mirroring the request each
method builds in src/dht.rs). -/
def facadeMessage (fm : FacadeMethod) (x : DhtId) (v : List Nat) : ActorMessageM :=
  match fm with
  | .info => .Info 1
  | .find_node => .Get x (.FindNode x) (.ClosestNodes 1)
  | .get_peers => .Get x (.GetPeers x) (.Peers 1)
  | .get_immutable => .Get x (.GetValue x none) (.Immutable 1)
  | .put_immutable => .Put (hash_immutable v) (.PutImmutable (hash_immutable v) v) 1
  | .get_mutable => .Get x (.GetValue x none) (.Mutable 1)
  | .put_mutable => .Put x (.PutMutable x v 0) 1
  | .announce_peer => .Put x (.AnnouncePeer (announcePeerRequest x none)) 1

/-! ### PUT handling in the actor (claims about lines 412-417 and 447-456) -/

/-- PutError as surfaced to callers. -/
inductive PutErrorM where
  | concurrency : PutErrorM
  | noClosestNodes : PutErrorM
  | queryError : Int → PutErrorM
deriving DecidableEq, Repr

/-- Modelled from the spec: the in-flight PUT set of the Rpc. rpc.put
registers a PUT query for a target; if a PUT for the same target is
already in flight with an identical payload fingerprint the second
request joins the first (Ok), and with a different payload it fails with
the concurrency error. -/
structure RpcPutStateM where
  inflight : List (DhtId × List Nat)
deriving DecidableEq, Repr

def inflightLookup (l : List (DhtId × List Nat)) (t : DhtId) : Option (List Nat) :=
  match l with
  | [] => none
  | (t2, p) :: rest => if t2 = t then some p else inflightLookup rest t

/-- Modelled from the spec: rpc.put. -/
def rpcPut (st : RpcPutStateM) (target : DhtId) (payload : List Nat) :
    RpcPutStateM × Option PutErrorM :=
  match inflightLookup st.inflight target with
  | some p => if p = payload then (st, none) else (st, some .concurrency)
  | none => (⟨(target, payload) :: st.inflight⟩, none)

/-- HashMap::insert: replace the value under an existing key and return
the replaced value (whose channel is thereby dropped). -/
def hmInsert (m : List (DhtId × Nat)) (key : DhtId) (v : Nat) :
    List (DhtId × Nat) × Option Nat :=
  match m with
  | [] => ([(key, v)], none)
  | (k2, w) :: t =>
    if k2 = key then ((k2, v) :: t, some w)
    else
      ((k2, w) :: (hmInsert t key v).1, (hmInsert t key v).2)

/-- HashMap::remove: drop the entry under a key individually, returning it. -/
def hmRemove (m : List (DhtId × Nat)) (key : DhtId) :
    List (DhtId × Nat) × Option Nat :=
  match m with
  | [] => ([], none)
  | (k2, w) :: t =>
    if k2 = key then (t, some w)
    else
      ((k2, w) :: (hmRemove t key).1, (hmRemove t key).2)

/-- Actor state relevant to PUT queries: the rpc in-flight set, the
put_senders map, reply channels already sent to, and reply channels that
were dropped without a reply. -/
structure PutActorState where
  rpc : RpcPutStateM
  put_senders : List (DhtId × Nat)
  replies : List (Nat × Except PutErrorM DhtId)
  dropped : List Nat
deriving Repr

def PutActorState.start : PutActorState := ⟨⟨[]⟩, [], [], []⟩

/-- ActorMessage::Put handling (src/dht.rs lines 412-417): on rpc.put
error reply immediately; otherwise put_senders.insert(target, sender),
which silently replaces (and so drops) any sender already registered for
the same target. -/
def actorPut (st : PutActorState) (target : DhtId) (payload : List Nat)
    (sender : Nat) : PutActorState :=
  match rpcPut st.rpc target payload with
  | (rpc2, some e) => { st with rpc := rpc2, replies := (sender, .error e) :: st.replies }
  | (rpc2, none) =>
    { st with
      rpc := rpc2
      put_senders := (hmInsert st.put_senders target sender).1
      dropped :=
        match (hmInsert st.put_senders target sender).2 with
        | some old => old :: st.dropped
        | none => st.dropped }

/-- done_put_queries handling (src/dht.rs lines 447-456): remove the
sender for the finished target and send it the error, or Ok(id). -/
def actorDonePut (st : PutActorState) (target : DhtId) (err : Option PutErrorM) :
    PutActorState :=
  match hmRemove st.put_senders target with
  | (ps2, some sender) =>
    { st with
      put_senders := ps2
      replies :=
        (sender,
          match err with
          | some e => .error e
          | none => .ok target) :: st.replies }
  | (ps2, none) => { st with put_senders := ps2 }

def findReply (rs : List (Nat × Except PutErrorM DhtId)) (s : Nat) :
    Option (Except PutErrorM DhtId) :=
  match rs with
  | [] => none
  | (s2, r) :: rest => if s2 = s then some r else findReply rest s

instance : DecidableEq (Except PutErrorM DhtId) :=
  fun a b =>
    match a, b with
    | .error x, .error y =>
      if h : x = y then isTrue (by rw [h]) else isFalse (by simp [h])
    | .ok x, .ok y =>
      if h : x = y then isTrue (by rw [h]) else isFalse (by simp [h])
    | .error _, .ok _ => isFalse (by simp)
    | .ok _, .error _ => isFalse (by simp)

/-- What a caller blocked on receiver.recv() observes: the reply if one
was sent; a panic of the expect if its channel was dropped
without a reply; otherwise it is still waiting. -/
inductive CallerOutcome where
  | received : Except PutErrorM DhtId → CallerOutcome
  | panicked : CallerOutcome
  | waiting : CallerOutcome
deriving DecidableEq, Repr

def putCallerOutcome (st : PutActorState) (s : Nat) : CallerOutcome :=
  match findReply st.replies s with
  | some r => .received r
  | none => if s ∈ st.dropped then .panicked else .waiting

/-- Two overlapping put_immutable(v) calls with the same value: both Put
messages are processed before the shared query completes, then the query
completes successfully. -/
def overlappingPutRun (v : List Nat) : PutActorState :=
  actorDonePut
    (actorPut (actorPut PutActorState.start (hash_immutable v) v 1)
      (hash_immutable v) v 2)
    (hash_immutable v) none

/-- A single put_immutable(v) call whose query completes with the given
error (none meaning success). -/
def singlePutRun (v : List Nat) (err : Option PutErrorM) : PutActorState :=
  actorDonePut (actorPut PutActorState.start (hash_immutable v) v 1)
    (hash_immutable v) err

/-! ### GET handling in the actor (claims about lines 419-427, 433-438,
458-461) and the facade get methods -/

/-- Actor state relevant to GET queries. -/
structure GetActorState where
  get_senders : List (DhtId × ResponseSender)
  deliveries : List Delivery
  closedSinks : List Nat
deriving Repr

def GetActorState.start : GetActorState := ⟨[], [], []⟩

def gsLookup (m : List (DhtId × ResponseSender)) (key : DhtId) :
    Option ResponseSender :=
  match m with
  | [] => none
  | (k2, w) :: t => if k2 = key then some w else gsLookup t key

def gsRemove (m : List (DhtId × ResponseSender)) (key : DhtId) :
    List (DhtId × ResponseSender) × Option ResponseSender :=
  match m with
  | [] => ([], none)
  | (k2, w) :: t =>
    if k2 = key then (t, some w)
    else
      ((k2, w) :: (gsRemove t key).1, (gsRemove t key).2)

/-- ActorMessage::Get handling (lines 419-427): forward any cached
responses from rpc.get through the dispatcher, then register the sink. -/
def actorGet (st : GetActorState) (target : DhtId) (sender : ResponseSender)
    (cached : Option (List Response)) : GetActorState :=
  { st with
    deliveries :=
      st.deliveries ++
        (match cached with
         | some rs => rs.filterMap (send sender)
         | none => [])
    get_senders := (target, sender) :: st.get_senders }

/-- report.query_response handling (lines 433-438): route an incremental
response of an ongoing query into its sink, if still registered. -/
def actorQueryResponse (st : GetActorState) (target : DhtId) (r : Response) :
    GetActorState :=
  match gsLookup st.get_senders target with
  | some sender =>
    { st with
      deliveries :=
        st.deliveries ++
          (match send sender r with
           | some d => [d]
           | none => []) }
  | none => st

/-- done_get_queries handling (lines 458-461): remove the sink, whose
channel is thereby dropped and closes. -/
def actorDoneGet (st : GetActorState) (target : DhtId) : GetActorState :=
  match gsRemove st.get_senders target with
  | (m2, some sender) =>
    { st with get_senders := m2, closedSinks := sinkId sender :: st.closedSinks }
  | (m2, none) => { st with get_senders := m2 }

/-- A full run of one GET query: registration (with the cached responses
rpc.get returned, none when nothing was cached), one tick per incremental
response, then completion. -/
def runGetQuery (sender : ResponseSender) (target : DhtId)
    (cached : Option (List Response)) (resps : List Response) : GetActorState :=
  actorDoneGet
    ((resps.foldl (fun st r => actorQueryResponse st target r)
      (actorGet GetActorState.start target sender cached)))
    target

/-- First immutable payload delivered into channel s. -/
def firstImmutableTo (ds : List Delivery) (s : Nat) : Option (List Nat) :=
  match ds with
  | [] => none
  | .Immutable s2 v :: rest => if s2 = s then some v else firstImmutableTo rest s
  | _ :: rest => firstImmutableTo rest s

/-- Dht::get_immutable (lines 291-309) once the Get message was accepted:
the caller does receiver.recv().map(Some).unwrap_or(None), that is the
first value delivered into its channel, or None when the channel closes
without one; the result is always Ok. -/
def getImmutableOutcome (target : DhtId) (cached : Option (List Response))
    (resps : List Response) : Except DhtWasShutdownM (Option (List Nat)) :=
  .ok (firstImmutableTo (runGetQuery (.Immutable 1) target cached resps).deliveries 1)

/-! ### Dht::new and the Check reply (lines 159-175, 400-402, 464-468) -/

/-- Outcome of Dht::new as observed by the caller. -/
inductive NewOutcome where
  | okDht : NewOutcome
  | bindError : NewOutcome
  | panicInfallible : NewOutcome
  | panicSendExpect : NewOutcome
deriving DecidableEq, Repr

/-- Interleavings of the constructor's Check send against the actor
thread when Rpc::new failed: the send can land before the thread's single
try_recv, after it but before the thread exits, or after the thread
exited and dropped the queue. -/
inductive CheckRace where
  | sendBeforeTryRecv : CheckRace
  | tryRecvBeforeSend : CheckRace
  | exitBeforeSend : CheckRace
deriving DecidableEq, Repr

/-- Which of the two events of the race succeed: whether the
constructor's send finds the receiver alive, and whether the Check
message is already queued when the Rpc::new error branch runs its single
try_recv (lines 464-468). -/
def raceConditions : CheckRace → Bool × Bool
  | .sendBeforeTryRecv => (true, true)
  | .tryRecvBeforeSend => (true, false)
  | .exitBeforeSend => (false, false)

/-- Dht::new (lines 159-175) when Rpc::new fails: the constructor sends
Check and expects success, then recvs the reply and expects success (the
expect whose message claims it is infallible), then propagates the io
error; the actor error branch replied only if the Check was already
queued at its single try_recv. -/
def dhtNewErrOutcome (r : CheckRace) : NewOutcome :=
  match raceConditions r with
  | (false, _) => .panicSendExpect
  | (true, true) => .bindError
  | (true, false) => .panicInfallible

/-- Dht::new when Rpc::new succeeds: the loop (lines 392-429) polls the
queue every iteration, so the Check message is answered Ok(()) as soon as
the socket is bound, regardless of bootstrap progress, and the
constructor returns Ok. -/
def dhtNewOkOutcome : NewOutcome := .okDht

/-! ## Lemmas for the GET run -/

theorem foldQR (target : DhtId) (sender : ResponseSender) :
    ∀ (resps : List Response) (st : GetActorState),
      gsLookup st.get_senders target = some sender →
      (resps.foldl (fun s r => actorQueryResponse s target r) st).deliveries =
          st.deliveries ++ resps.filterMap (send sender) ∧
        (resps.foldl (fun s r => actorQueryResponse s target r) st).get_senders =
          st.get_senders ∧
        (resps.foldl (fun s r => actorQueryResponse s target r) st).closedSinks =
          st.closedSinks := by
  intro resps
  induction resps with
  | nil => intro st h; simp
  | cons r rest ih =>
    intro st h
    simp only [List.foldl_cons]
    have hs2 : (actorQueryResponse st target r).get_senders = st.get_senders := by
      simp [actorQueryResponse, h]
    have hc2 : (actorQueryResponse st target r).closedSinks = st.closedSinks := by
      simp [actorQueryResponse, h]
    have hd2 : (actorQueryResponse st target r).deliveries =
        st.deliveries ++
          (match send sender r with
           | some d => [d]
           | none => []) := by
      simp [actorQueryResponse, h]
    obtain ⟨d3, s3, c3⟩ := ih (actorQueryResponse st target r) (by rw [hs2]; exact h)
    refine ⟨?_, by rw [s3, hs2], by rw [c3, hc2]⟩
    rw [d3, hd2]
    cases hsr : send sender r <;> simp [List.filterMap_cons, hsr]

theorem actorDoneGet_deliveries (st : GetActorState) (target : DhtId) :
    (actorDoneGet st target).deliveries = st.deliveries := by
  simp only [actorDoneGet]
  rcases h : gsRemove st.get_senders target with ⟨m2, o⟩
  cases o <;> simp

theorem runGet_spec (sender : ResponseSender) (target : DhtId)
    (cached : Option (List Response)) (resps : List Response) :
    (runGetQuery sender target cached resps).deliveries =
        (cached.getD [] ++ resps).filterMap (send sender) ∧
      (runGetQuery sender target cached resps).closedSinks = [sinkId sender] := by
  have hst : (actorGet GetActorState.start target sender cached).get_senders =
      [(target, sender)] := by
    simp [actorGet, GetActorState.start]
  have hdel : (actorGet GetActorState.start target sender cached).deliveries =
      (cached.getD []).filterMap (send sender) := by
    cases cached <;> simp [actorGet, GetActorState.start]
  have hcl : (actorGet GetActorState.start target sender cached).closedSinks = [] := by
    simp [actorGet, GetActorState.start]
  have hlook : gsLookup (actorGet GetActorState.start target sender cached).get_senders
      target = some sender := by
    rw [hst]
    simp [gsLookup]
  obtain ⟨hd, hs, hc⟩ := foldQR target sender resps _ hlook
  constructor
  · simp only [runGetQuery, actorDoneGet_deliveries]
    rw [hd, hdel, List.filterMap_append]
  · simp only [runGetQuery, actorDoneGet]
    rw [hs, hst]
    simp [gsRemove, hc, hcl]

/-- First immutable response payload in a response list. -/
def firstImmutableResp (rs : List Response) : Option (List Nat) :=
  match rs with
  | [] => none
  | .Immutable v :: _ => some v
  | _ :: rest => firstImmutableResp rest

theorem firstImm_filterMap (rs : List Response) :
    firstImmutableTo (rs.filterMap (send (.Immutable 1))) 1 = firstImmutableResp rs := by
  induction rs with
  | nil => simp [firstImmutableTo, firstImmutableResp]
  | cons r rest ih =>
    cases r <;>
      simp [send, List.filterMap_cons, firstImmutableTo, firstImmutableResp, ih]

/-- Round-trip helper: composing the serializer, the bencode codec and
the deserializer is the identity away from GetPeers responses. -/
theorem from_bytes_to_bytes (m : DHTMessage) (hwf : wfMsg m = true)
    (hgp : m.isGetPeersResponse = false) :
    DHTMessage.from_bytes (DHTMessage.to_bytes m) = some m := by
  have h1 := wfB_encodeMsg m hwf
  simp [DHTMessage.from_bytes, DHTMessage.to_bytes, parseBencode_encodeB _ h1,
    decodeMsg_encodeMsg m hwf hgp]

/-! ## Claims -/

/-- A GetPeers response carrying only its required fields id and token. -/
def c1CexMsg : DHTMessage :=
  ⟨[97, 97], none, .Response (.GetPeers ⟨[1, 2, 3], [9, 9], none, none⟩), none, none⟩

/-- What the GetPeers response round-trips into: since its id and token
also satisfy the GetValue variant (whose other fields are optional or
defaulted) and GetValue is tried first by untagged deserialization, it
decodes as a GetValue response with an empty v. -/
def c1CexDecoded : DHTMessage :=
  ⟨[97, 97], none,
    .Response (.GetValue ⟨[1, 2, 3], [9, 9], none, [], none, none, none⟩), none, none⟩

/-- C1 counterexample: the round-trip is not the identity on every
DHTMessage: a GetPeers response re-decodes as a GetValue response, so
from_bytes of to_bytes differs from the original message. -/
theorem C1_counterexample :
    DHTMessage.from_bytes (DHTMessage.to_bytes c1CexMsg) = some c1CexDecoded ∧
      ¬DHTMessage.from_bytes (DHTMessage.to_bytes c1CexMsg) = some c1CexMsg := by
  constructor
  · decide
  · decide

/-- C1 (amended): encoding a DHTMessage with to_bytes and decoding with
from_bytes yields an equal structure for every message that is not a
GetPeers response (wfMsg records the range invariants of the Rust field
types, which hold by construction for every Rust value); GetPeers
responses instead decode as GetValue by untagged order. -/
theorem C1_roundtrip_amended (m : DHTMessage) (hwf : wfMsg m = true)
    (hgp : m.isGetPeersResponse = false) :
    DHTMessage.from_bytes (DHTMessage.to_bytes m) = some m :=
  from_bytes_to_bytes m hwf hgp

/-- A concrete GetValue response message exercising the round-trip. -/
def c1WitnessMsg : DHTMessage :=
  ⟨[116, 116], some [118, 49],
    .Response (.GetValue ⟨[1, 2], [3], none, [7, 8], none, none, some 42⟩),
    none, some 1⟩

/-- C1 witness: the amended round-trip applied to a concrete response. -/
theorem C1_roundtrip_amended_witness :
    wfMsg c1WitnessMsg = true ∧ c1WitnessMsg.isGetPeersResponse = false ∧
      DHTMessage.from_bytes (DHTMessage.to_bytes c1WitnessMsg) = some c1WitnessMsg :=
  ⟨by decide, by decide, C1_roundtrip_amended c1WitnessMsg (by decide) (by decide)⟩

/-- C2: two overlapping put_immutable(v) calls with the same value share
one query (rpc.put deduplicates), but the second Put replaces the first
caller's reply sender in the put_senders HashMap, dropping its channel:
when the query completes only the second caller receives Ok(target); the
first caller's recv fails and its expect panics, contradicting the claim
that both callers observe the same outcome without panicking. -/
theorem C2_overlapping_put_first_caller_panics (v : List Nat) :
    putCallerOutcome (overlappingPutRun v) 2 =
        .received (.ok (hash_immutable v)) ∧
      putCallerOutcome (overlappingPutRun v) 1 = .panicked := by
  have hrem : hmRemove [(hash_immutable v, 2)] (hash_immutable v) = ([], some 2) := by
    simp [hmRemove]
  constructor <;>
    simp [overlappingPutRun, actorPut, actorDonePut, rpcPut, inflightLookup,
      hmInsert, PutActorState.start, putCallerOutcome, findReply, hrem]

/-- C3: once a GET query is registered, the facade call cannot fail: the
run delivers exactly the matching responses into the sink, the sink is
closed when the query completes (so the get_peers and get_mutable
iterators terminate), and get_immutable returns Ok of the first delivered
value, hence Ok(None) on a run with no responses such as an empty
network where every transaction times out. -/
theorem C3_get_never_fails_after_registration :
    ∀ (target : DhtId) (cached : Option (List Response)) (resps : List Response),
      (getImmutableOutcome target cached resps =
        Except.ok (firstImmutableResp (cached.getD [] ++ resps))) ∧
      (∀ sender : ResponseSender,
        sinkId sender ∈ (runGetQuery sender target cached resps).closedSinks) ∧
      getImmutableOutcome target none [] = Except.ok none := by
  intro target cached resps
  obtain ⟨hd, hc⟩ := runGet_spec (.Immutable 1) target cached resps
  refine ⟨?_, ?_, ?_⟩
  · simp only [getImmutableOutcome, hd, firstImm_filterMap]
  · intro sender
    obtain ⟨_, hc2⟩ := runGet_spec sender target cached resps
    simp [hc2]
  · obtain ⟨hd0, _⟩ := runGet_spec (.Immutable 1) target none []
    simp only [getImmutableOutcome, hd0]
    simp [firstImmutableTo]

/-- C4: after shutdown the actor dropped the queue receiver and exited,
so on every clone of the facade every public method's send fails and is
mapped to the Shutdown error immediately, without blocking or panicking. -/
theorem C4_calls_after_shutdown_error :
    ∀ (fm : FacadeMethod) (x : DhtId) (v : List Nat),
      callViaChannel actorAfterShutdown (facadeMessage fm x v) = .shutdownErr := by
  intro fm x v
  cases fm <;> rfl

/-- C5 as stated: the loop iteration exits exactly on a received Shutdown
message or on a disconnected (closed) queue. -/
def c5ClaimStatement : Prop :=
  ∀ tr : TryRecvResult,
    loopIteration tr = .exit ↔ (tr.isShutdownMsg = true ∨ tr = .disconnected)

/-- C5 counterexample: the claim as stated is false: when the queue is
closed because every facade handle was dropped, try_recv returns Err and
the if let Ok pattern of the loop ignores it, so the iteration continues
ticking instead of exiting. -/
theorem C5_counterexample : ¬c5ClaimStatement := by
  intro h
  have h2 := (h .disconnected).2 (Or.inr rfl)
  simp [loopIteration] at h2

/-- C5 (amended): the actor loop iteration exits exactly when it observes
a Shutdown message; a closed queue (and any other message or an empty
queue) leads to another tick, so the thread never exits on its own when
all facade handles are dropped. -/
theorem C5_loop_exit_amended :
    ∀ tr : TryRecvResult, loopIteration tr = .exit ↔ tr.isShutdownMsg = true := by
  intro tr
  cases tr with
  | ok m => cases m <;> simp [loopIteration, TryRecvResult.isShutdownMsg]
  | empty => simp [loopIteration, TryRecvResult.isShutdownMsg]
  | disconnected => simp [loopIteration, TryRecvResult.isShutdownMsg]

/-- C6: when binding succeeds the Check is answered Ok(()) promptly; when
Rpc::new fails, the constructor returns the io error only in the
interleaving where the Check message is already queued at the error
branch's single try_recv; if the Check arrives after it, the thread exits
without replying and the constructor panics on one of its two expects
instead of returning the error. -/
theorem C6_new_check_race :
    dhtNewErrOutcome .sendBeforeTryRecv = .bindError ∧
      dhtNewErrOutcome .tryRecvBeforeSend = .panicInfallible ∧
      dhtNewErrOutcome .exitBeforeSend = .panicSendExpect ∧
      dhtNewOkOutcome = .okDht := by
  decide

def helloWorldBytes : List Nat := strBytes "Hello World!"

/-- The digest e5f96f6f38320f0f33959cb4d3d656452117aadb as bytes. -/
def helloWorldTarget : List Nat :=
  [229, 249, 111, 111, 56, 50, 15, 15, 51, 149, 156, 180, 211, 214, 86, 69,
    33, 23, 170, 219]

/-- C7 counterexample: the target returned by a successful
put_immutable("Hello World!") is not the SHA1 digest of the raw value
bytes: it is the digest e5f96f6f38320f0f33959cb4d3d656452117aadb of the
bencoded value, as the claim's own literal shows. -/
theorem C7_counterexample :
    ¬putCallerOutcome (singlePutRun helloWorldBytes none) 1 =
        .received (.ok (sha1 helloWorldBytes)) ∧
      putCallerOutcome (singlePutRun helloWorldBytes none) 1 =
        .received (.ok helloWorldTarget) := by
  constructor
  · decide
  · decide

/-- C7 (amended): every put_immutable(v) call that returns Ok returns the
target hash_immutable(v), the SHA1 digest of the bencoded value
(length-prefixed bytes, the BEP-44 immutable target), independent of the
network outcome; for the value Hello World! that digest is
e5f96f6f38320f0f33959cb4d3d656452117aadb. -/
theorem C7_put_immutable_target_amended :
    (∀ (v : List Nat) (err : Option PutErrorM),
      putCallerOutcome (singlePutRun v err) 1 =
        .received
          (match err with
           | some e => Except.error e
           | none => Except.ok (hash_immutable v))) ∧
      hash_immutable helloWorldBytes = helloWorldTarget := by
  constructor
  · intro v err
    have hrem : hmRemove [(hash_immutable v, 1)] (hash_immutable v) = ([], some 1) := by
      simp [hmRemove]
    cases err <;>
      simp [singlePutRun, actorPut, actorDonePut, rpcPut, inflightLookup,
        hmInsert, PutActorState.start, putCallerOutcome, findReply, hrem]
  · decide

/-- The canonical bencoded put request envelope of the spec, with the
immutable put arguments id, token and v:
d1:ad2:id2:AB5:token2:tk1:v3:abce1:q3:put1:t2:tt1:y1:qe. -/
def putEnvelopeBytes : List Nat :=
  strBytes "d1:ad2:id2:AB5:token2:tk1:v3:abce1:q3:put1:t2:tt1:y1:qe"

/-- C8 counterexample: DHTRequestSpecific has no put variant, so
from_bytes rejects a well-formed put request envelope instead of
succeeding as the claim states. -/
theorem C8_counterexample : DHTMessage.from_bytes putEnvelopeBytes = none := by
  decide

/-- C8 (amended): for every well-formed request envelope whose method is
one of the five supported ones (ping, find_node, get_peers,
announce_peer, get_value) with the arguments the spec assigns to it,
from_bytes succeeds and returns the corresponding request variant; a put
envelope is rejected since the source defines no put variant. -/
theorem C8_request_decode_amended (t : List Nat) (ver : Option (List Nat))
    (ip : Option (List Nat)) (ro : Option Int) (r : DHTRequestSpecific)
    (hwf : wfMsg ⟨t, ver, .Request r, ip, ro⟩ = true) :
    DHTMessage.from_bytes (DHTMessage.to_bytes ⟨t, ver, .Request r, ip, ro⟩) =
      some ⟨t, ver, .Request r, ip, ro⟩ :=
  from_bytes_to_bytes ⟨t, ver, .Request r, ip, ro⟩ hwf rfl

/-- A concrete announce_peer request exercising the amended claim. -/
def c8WitnessReq : DHTRequestSpecific :=
  .AnnouncePeer ⟨[1, 2], [3, 4], 45555, [5], some 1⟩

/-- C8 witness: the amended request decoding applied to a concrete
announce_peer envelope. -/
theorem C8_request_decode_amended_witness :
    wfMsg ⟨[116, 116], none, .Request c8WitnessReq, none, none⟩ = true ∧
      DHTMessage.from_bytes
          (DHTMessage.to_bytes ⟨[116, 116], none, .Request c8WitnessReq, none, none⟩) =
        some ⟨[116, 116], none, .Request c8WitnessReq, none, none⟩ :=
  ⟨by decide,
    C8_request_decode_amended [116, 116] none none none c8WitnessReq (by decide)⟩

/-- C9: the dispatch helper send delivers a response into the sink with
the exact payload if and only if the sink and response kinds agree;
every mismatched pair, in particular any response paired with a
ClosestNodes sink, is dropped silently. -/
theorem C9_dispatch_routing :
    (∀ (s : ResponseSender) (r : Response),
      ((send s r).isSome = true ↔ sinkKind s = responseKind r)) ∧
      (∀ sid ps, send (.Peers sid) (.Peers ps) = some (.Peers sid ps)) ∧
      (∀ sid it, send (.Mutable sid) (.Mutable it) = some (.Mutable sid it)) ∧
      (∀ sid bs, send (.Immutable sid) (.Immutable bs) = some (.Immutable sid bs)) ∧
      (∀ sid r, send (.ClosestNodes sid) r = none) := by
  refine ⟨?_, fun sid ps => rfl, fun sid it => rfl, fun sid bs => rfl, ?_⟩
  · intro s r
    cases s <;> cases r <;> simp [send, sinkKind, responseKind]
  · intro sid r
    cases r <;> rfl

/-- C10: announce_peer with an explicit port submits that port and no
implied_port; with no port it submits port 0 and implied_port true, so
remote nodes use the UDP source port. -/
theorem C10_announce_peer_port :
    ∀ ih : DhtId,
      (∀ p : Nat,
        announcePeerRequest ih (some p) =
          { info_hash := ih, port := p, implied_port := none }) ∧
      announcePeerRequest ih none =
        { info_hash := ih, port := 0, implied_port := some true } := by
  intro ih
  exact ⟨fun p => rfl, rfl⟩
